import Mathlib

/-!
Verification of the ISIMIP debiasing pipeline of the ibicus repository
(source file PACKAGE_NAME/debias/_isimip.py), shallowly embedded over
lists of rationals.  Numpy float arrays become List ℚ (exact arithmetic;
no NaN/Inf values are representable, which is noted wherever it matters),
numpy boolean masks become List Bool, and the scipy distribution objects
become records of fit/cdf/ppf functions.  Helper functions imported by
the source from the package's utils module (ecdf, iecdf,
sort_array_like_another_one, get_chunked_mean, get_yearly_mean,
interp_sorted_cdf_vals_on_given_length, threshold_cdf_vals) are not part
of the sources at hand and are modelled from the specification; each such
definition carries a doc comment saying so.
-/

namespace Ibicus

/-- Number of true entries of a boolean mask (numpy mask.sum()). -/
def countTrue : List Bool → ℕ
  | [] => 0
  | b :: bs => countTrue bs + (if b then 1 else 0)

/-- Mask of length n whose first nr entries are true: numpy
mask[0:nr] = True applied to a mask of zeros. -/
def maskFirst (n nr : ℕ) : List Bool := (List.range n).map (fun i => decide (i < nr))

/-- Mask of length n whose last nr entries are true: numpy
mask[(size - nr):] = True applied to a mask of zeros. -/
def maskLast (n nr : ℕ) : List Bool := (List.range n).map (fun i => decide (n - nr ≤ i))

/-- Masked assignment of a constant: x[mask] = v. -/
def setWhere (mask : List Bool) (v : ℚ) (x : List ℚ) : List ℚ :=
  List.zipWith (fun m a => if m then v else a) mask x

/-- Masked assignment of an array: x[mask] = vals, the entries of vals
being consumed in order at the true positions of the mask. -/
def scatterWhere : List Bool → List ℚ → List ℚ → List ℚ
  | true :: ms, v :: vs, _ :: as => v :: scatterWhere ms vs as
  | true :: ms, [], a :: as => a :: scatterWhere ms [] as
  | false :: ms, vs, a :: as => a :: scatterWhere ms vs as
  | _, _, [] => []
  | [], _, _ => []

/-- Boolean mask indexing: x[mask]. -/
def filterByMask {α : Type} : List Bool → List α → List α
  | true :: ms, a :: as => a :: filterByMask ms as
  | false :: ms, _ :: as => filterByMask ms as
  | _, _ => []

/-- Fancy integer indexing x[idx], with a default for out-of-range
indices (never reached in the uses below). -/
def gather {α : Type} (x : List α) (idx : List ℕ) (d : α) : List α :=
  idx.map (fun i => x.getD i d)

/-- Comparison used by argsort: order indices by their value in v,
breaking ties by index (a stable argsort). -/
def rankLe {α : Type} [LinearOrder α] (v : List α) (d : α) (i j : ℕ) : Prop :=
  v.getD i d < v.getD j d ∨ (v.getD i d = v.getD j d ∧ i ≤ j)

instance {α : Type} [LinearOrder α] (v : List α) (d : α) : DecidableRel (rankLe v d) :=
  fun i j => by unfold rankLe; exact inferInstance

instance {α : Type} [LinearOrder α] (v : List α) (d : α) : IsTotal ℕ (rankLe v d) := by
  constructor
  intro i j
  rcases lt_trichotomy (v.getD i d) (v.getD j d) with h | h | h
  · exact Or.inl (Or.inl h)
  · rcases Nat.le_total i j with hij | hij
    · exact Or.inl (Or.inr ⟨h, hij⟩)
    · exact Or.inr (Or.inr ⟨h.symm, hij⟩)
  · exact Or.inr (Or.inl h)

instance {α : Type} [LinearOrder α] (v : List α) (d : α) : IsTrans ℕ (rankLe v d) := by
  constructor
  intro i j k hij hjk
  rcases hij with h1 | ⟨h1, h1i⟩
  · rcases hjk with h2 | ⟨h2, _⟩
    · exact Or.inl (h1.trans h2)
    · exact Or.inl (h2 ▸ h1)
  · rcases hjk with h2 | ⟨h2, h2i⟩
    · exact Or.inl (h1 ▸ h2)
    · exact Or.inr ⟨h1.trans h2, h1i.trans h2i⟩

/-- Embedding of numpy argsort: the permutation of 0..n-1 that sorts the
value list v (stable in the ties). -/
def argsort {α : Type} [LinearOrder α] (v : List α) (d : α) : List ℕ :=
  List.insertionSort (rankLe v d) (List.range v.length)

/-- Embedding of numpy sort for value arrays. -/
def sortQ (x : List ℚ) : List ℚ := List.insertionSort (fun a b => a ≤ b) x

theorem argsort_perm {α : Type} [LinearOrder α] (v : List α) (d : α) :
    List.Perm (argsort v d) (List.range v.length) :=
  List.perm_insertionSort _ _

theorem argsort_length {α : Type} [LinearOrder α] (v : List α) (d : α) :
    (argsort v d).length = v.length := by
  simpa using (argsort_perm v d).length_eq

theorem argsort_sorted {α : Type} [LinearOrder α] (v : List α) (d : α) :
    List.Sorted (rankLe v d) (argsort v d) :=
  List.sorted_insertionSort _ _

theorem argsort_nodup {α : Type} [LinearOrder α] (v : List α) (d : α) :
    (argsort v d).Nodup :=
  (argsort_perm v d).nodup_iff.2 (List.nodup_range _)

theorem mem_argsort_lt {α : Type} [LinearOrder α] {v : List α} {d : α} {i : ℕ}
    (h : i ∈ argsort v d) : i < v.length := by
  have := (argsort_perm v d).mem_iff.1 h
  simpa using this

theorem getD_eq_get {α : Type} {l : List α} {i : ℕ} (h : i < l.length) (d : α) :
    l.getD i d = l.get ⟨i, h⟩ := by
  simp [List.getD_eq_getElem?_getD, List.getElem?_eq_getElem, h]

theorem map_getD {α β : Type} (f : α → β) {l : List α} {i : ℕ} (h : i < l.length)
    (da : α) (db : β) : (l.map f).getD i db = f (l.getD i da) := by
  have h2 : i < (l.map f).length := by simpa using h
  rw [getD_eq_get h2, getD_eq_get h, List.get_map]

theorem range_getD {n i : ℕ} (h : i < n) (d : ℕ) : (List.range n).getD i d = i := by
  have h2 : i < (List.range n).length := by simpa using h
  rw [getD_eq_get h2]
  simp

theorem gather_length {α : Type} (x : List α) (idx : List ℕ) (d : α) :
    (gather x idx d).length = idx.length := by
  simp [gather]

theorem gather_getD {α : Type} (x : List α) {idx : List ℕ} {i : ℕ}
    (h : i < idx.length) (d : α) :
    (gather x idx d).getD i d = x.getD (idx.getD i 0) d := by
  unfold gather
  rw [map_getD _ h 0 d]

theorem map_getD_range {α : Type} (l : List α) (d : α) :
    (List.range l.length).map (fun i => l.getD i d) = l := by
  apply List.ext_get
  · simp
  · intro i h1 h2
    have hi : i < l.length := h2
    have h3 : i < (List.range l.length).length := by simpa using hi
    rw [List.get_map]
    rw [← getD_eq_get h3 0, range_getD hi, getD_eq_get hi]

theorem sorted_gather_argsort {α : Type} [LinearOrder α] (v : List α) (d : α) :
    List.Sorted (· ≤ ·) (gather v (argsort v d) d) := by
  have h := argsort_sorted v d
  unfold gather
  refine List.Pairwise.map _ ?_ h
  intro i j hij
  rcases hij with h1 | ⟨h1, _⟩
  · exact le_of_lt h1
  · exact le_of_eq h1

theorem sorted_getD_mono {l : List ℚ} (hs : List.Sorted (· ≤ ·) l) {a b : ℕ}
    (hab : a ≤ b) (hb : b < l.length) (d : ℚ) : l.getD a d ≤ l.getD b d := by
  have ha : a < l.length := lt_of_le_of_lt hab hb
  rw [getD_eq_get ha, getD_eq_get hb]
  rcases Nat.lt_or_ge a b with h | h
  · exact List.pairwise_iff_get.1 hs ⟨a, ha⟩ ⟨b, hb⟩ h
  · have : a = b := le_antisymm hab h
    subst this
    exact le_refl _

theorem sorted_getD_mono_nat {l : List ℕ} (hs : List.Sorted (· ≤ ·) l) {a b : ℕ}
    (hab : a ≤ b) (hb : b < l.length) (d : ℕ) : l.getD a d ≤ l.getD b d := by
  have ha : a < l.length := lt_of_le_of_lt hab hb
  rw [getD_eq_get ha, getD_eq_get hb]
  rcases Nat.lt_or_ge a b with h | h
  · exact List.pairwise_iff_get.1 hs ⟨a, ha⟩ ⟨b, hb⟩ h
  · have : a = b := le_antisymm hab h
    subst this
    exact le_refl _

theorem gather_argsort_of_perm_range {σ : List ℕ} {n : ℕ}
    (hσ : List.Perm σ (List.range n)) :
    gather σ (argsort σ 0) 0 = List.range n := by
  have hlen : σ.length = n := by simpa using hσ.length_eq
  have hperm : List.Perm (gather σ (argsort σ 0) 0) σ := by
    have h1 : List.Perm (argsort σ 0) (List.range σ.length) := argsort_perm σ 0
    have h2 := h1.map (fun i => σ.getD i 0)
    unfold gather
    rw [map_getD_range σ 0] at h2
    exact h2
  have hsorted : List.Sorted (· ≤ ·) (gather σ (argsort σ 0) 0) :=
    sorted_gather_argsort σ 0
  exact List.eq_of_perm_of_sorted (hperm.trans hσ) hsorted (List.sorted_le_range n)

theorem argsort_inv_getD {σ : List ℕ} {n : ℕ} (hσ : List.Perm σ (List.range n))
    {i : ℕ} (hi : i < n) : σ.getD ((argsort σ 0).getD i 0) 0 = i := by
  have hlen : σ.length = n := by simpa using hσ.length_eq
  have hg := gather_argsort_of_perm_range hσ
  have hilen : i < (argsort σ 0).length := by rw [argsort_length, hlen]; exact hi
  have := gather_getD σ hilen 0
  rw [hg, range_getD hi] at this
  exact this.symm

theorem argsort_inv_lt {σ : List ℕ} {n : ℕ} (hσ : List.Perm σ (List.range n))
    {i : ℕ} (hi : i < n) : (argsort σ 0).getD i 0 < n := by
  have hlen : σ.length = n := by simpa using hσ.length_eq
  have hilen : i < (argsort σ 0).length := by rw [argsort_length, hlen]; exact hi
  have hmem : (argsort σ 0).getD i 0 ∈ argsort σ 0 := by
    rw [getD_eq_get hilen]
    exact List.get_mem _ _ _
  have := mem_argsort_lt hmem
  rwa [hlen] at this

/-- Mean of a list (numpy mean; 0 on the empty list where numpy gives nan). -/
def mean (x : List ℚ) : ℚ := x.sum / x.length

/-- Python's built-in round (round half to even), as applied to the
numpy float in _step6_get_nr_of_entries_to_set_to_bound. -/
def pyRound (q : ℚ) : ℤ :=
  let f := ⌊q⌋
  let r := q - f
  if r < 1/2 then f else if 1/2 < r then f + 1 else if 2 ∣ f then f else f + 1

/-- Embedding of np.isclose with its default tolerances
rtol = 1e-5 and atol = 1e-8: |a - b| <= atol + rtol * |b|. -/
def iscloseQ (a b : ℚ) : Prop := |a - b| ≤ 1/100000000 + |b| / 100000

instance (a b : ℚ) : Decidable (iscloseQ a b) := by unfold iscloseQ; exact inferInstance

/-- Elementwise difference of two numpy arrays. A length-1 right operand
is broadcast over the left one (numpy 1-D broadcasting); any other length
mismatch models the ValueError numpy raises. In step 3, the only use of
this operation, the trend never exceeds the series in length, and a
length-1 series against an empty trend cannot be reached (empty annual
means make linregress raise first), so only the right operand's
broadcast case arises. -/
def npSub (a b : List ℚ) : Option (List ℚ) :=
  if a.length = b.length then some (List.zipWith (fun u v => u - v) a b)
  else if b.length = 1 then some (a.map (fun u => u - b.getD 0 0))
  else none

/-- Elementwise sum of two numpy arrays, with the same length-1
broadcasting of the right operand as npSub (step 7 adds a trend that
step 3 may have produced with length 1); none models the ValueError
numpy raises on any other length mismatch. -/
def npAdd (a b : List ℚ) : Option (List ℚ) :=
  if a.length = b.length then some (List.zipWith (fun u v => u + v) a b)
  else if b.length = 1 then some (a.map (fun u => u + b.getD 0 0))
  else none

/-- Extended rational mirroring the ±np.inf sentinels used by the bound
and threshold fields of the ISIMIP configuration. -/
inductive QInf
  | finite (q : ℚ)
  | posInf
  | negInf
deriving DecidableEq

/-- Comparison x <= t of a float value with a possibly infinite field. -/
def leQI (x : ℚ) : QInf → Bool
  | .finite q => decide (x ≤ q)
  | .posInf => true
  | .negInf => false

/-- Comparison x >= t of a float value with a possibly infinite field. -/
def geQI (x : ℚ) : QInf → Bool
  | .finite q => decide (q ≤ x)
  | .posInf => false
  | .negInf => true

/-- Comparison x > t of a float value with a possibly infinite field. -/
def gtQI (x : ℚ) : QInf → Bool
  | .finite q => decide (q < x)
  | .posInf => false
  | .negInf => true

/-- Comparison x < t of a float value with a possibly infinite field. -/
def ltQI (x : ℚ) : QInf → Bool
  | .finite q => decide (x < q)
  | .posInf => true
  | .negInf => false

/-- Rational content of a bound field, read where the source stores the
float bound into a value array (all claims exercise finite bounds there;
an infinite bound would propagate a float inf, not representable in ℚ). -/
def QInf.toQ : QInf → ℚ
  | .finite q => q
  | .posInf => 0
  | .negInf => 0

/-- Trend preservation method; the attrs validator in_(["additive",
"multiplicative", "mixed", "bounded"]) makes any other value impossible
after construction. -/
inductive TrendMethod
  | additive
  | multiplicative
  | mixed
  | bounded
deriving DecidableEq

/-- Configuration fields of the ISIMIP debiaser class (the distribution
object is passed separately as a Dist record). -/
structure ISIMIPConfig where
  trendPreservationMethod : TrendMethod
  detrending : Bool
  reasonablePhysicalRange : Option (ℚ × ℚ)
  varName : String
  lowerBound : QInf
  lowerThreshold : QInf
  upperBound : QInf
  upperThreshold : QInf
  trendRemovalWithSignificanceTest : Bool
  trendTransferOnlyForValuesWithinThreshold : Bool
  eventLikelihoodAdjustment : Bool
  runningWindowMode : Bool
  runningWindowLength : ℕ
  runningWindowStepLength : ℕ

/-- Property has_lower_threshold: lower_threshold > -inf. -/
def ISIMIPConfig.hasLowerThreshold (cfg : ISIMIPConfig) : Bool :=
  cfg.lowerThreshold ≠ QInf.negInf

/-- Property has_lower_bound: lower_bound > -inf. -/
def ISIMIPConfig.hasLowerBound (cfg : ISIMIPConfig) : Bool :=
  cfg.lowerBound ≠ QInf.negInf

/-- Property has_upper_threshold: upper_threshold < inf. -/
def ISIMIPConfig.hasUpperThreshold (cfg : ISIMIPConfig) : Bool :=
  cfg.upperThreshold ≠ QInf.posInf

/-- Property has_upper_bound: upper_bound < inf. -/
def ISIMIPConfig.hasUpperBound (cfg : ISIMIPConfig) : Bool :=
  cfg.upperBound ≠ QInf.posInf

/-- Mask of _get_mask_for_values_beyond_lower_threshold: x <= lower_threshold. -/
def maskBeyondLower (cfg : ISIMIPConfig) (x : List ℚ) : List Bool :=
  x.map (fun v => leQI v cfg.lowerThreshold)

/-- Mask of _get_mask_for_values_beyond_upper_threshold: x >= upper_threshold. -/
def maskBeyondUpper (cfg : ISIMIPConfig) (x : List ℚ) : List Bool :=
  x.map (fun v => geQI v cfg.upperThreshold)

/-- Mask of _get_mask_for_values_between_thresholds:
(x > lower_threshold) & (x < upper_threshold). -/
def maskBetween (cfg : ISIMIPConfig) (x : List ℚ) : List Bool :=
  x.map (fun v => gtQI v cfg.lowerThreshold && ltQI v cfg.upperThreshold)

/-- Embedding of _get_values_between_thresholds. -/
def valuesBetween (cfg : ISIMIPConfig) (x : List ℚ) : List ℚ :=
  filterByMask (maskBetween cfg x) x

/-- A scipy-style statistical model: fit returns a parameter tuple,
cdf and ppf evaluate one value given parameters (the source applies them
elementwise over arrays). -/
structure Dist where
  fit : List ℚ → List ℚ
  cdf : List ℚ → ℚ → ℚ
  ppf : List ℚ → ℚ → ℚ

/-- Transcendental primitives (scipy.special.logit/expit, np.log(10),
np.cos, np.pi) abstracted as parameters, since they have no exact rational
form; every claim settled below is independent of their values. -/
structure SpecialFns where
  logit : ℚ → ℚ
  expit : ℚ → ℚ
  logTen : ℚ
  cosFn : ℚ → ℚ
  piVal : ℚ

/-- Modelled from the spec: the utils function threshold_cdf_vals is
missing from the given sources. The spec says extreme cdf values are
clamped away from exactly 0/1 to keep the inverse cdf finite; we clamp
into [eps, 1 - eps] with eps = 1e-10. -/
def thresholdCdfVals (vals : List ℚ) : List ℚ :=
  vals.map (fun p => max (1/10000000000) (min (1 - 1/10000000000) p))

/-- Modelled from the spec: the utils function
interp_sorted_cdf_vals_on_given_length is missing from the given sources.
The spec says sorted cdf values are interpolated onto the length of the
cm_future subset by position-proportional interpolation. -/
def interpSortedCdfVals (vals : List ℚ) (n : ℕ) : List ℚ :=
  List.map (fun i : ℕ =>
    if n ≤ 1 then vals.getD 0 0
    else
      let m := vals.length
      let pos : ℚ := ((i : ℚ) * ((m : ℚ) - 1)) / ((n : ℚ) - 1)
      let k : ℕ := (⌊pos⌋).toNat
      let frac := pos - (k : ℚ)
      (1 - frac) * vals.getD k 0 + frac * vals.getD (k + 1) (vals.getD (m - 1) 0))
    (List.range n)

/-- Modelled from the spec: the utils function ecdf is missing from the
given sources. Empirical cdf of the data evaluated at each entry of x
(step-function estimator): the fraction of data points <= the entry. -/
def ecdfM (data x : List ℚ) : List ℚ :=
  x.map (fun v => (countTrue (data.map (fun w => decide (w ≤ v))) : ℚ) / (data.length : ℚ))

/-- Modelled from the spec: the utils function iecdf is missing from the
given sources. Empirical quantile of x at each probability in p
(inverted-cdf estimator on the sorted sample). -/
def iecdfM (x : List ℚ) (p : List ℚ) : List ℚ :=
  let s := sortQ x
  p.map (fun q => s.getD ((⌈q * (x.length : ℚ)⌉).toNat - 1) 0)

/-- Modelled from the spec: the utils function sort_array_like_another_one
is missing from the given sources. It re-arranges x so that it is ordered
like y: the i-th entry of the result is the entry of sorted x whose rank
equals the rank of y[i] within y. -/
def sortLike (x y : List ℚ) : List ℚ :=
  gather (sortQ x) (argsort (argsort y 0) 0) 0

/-- Modelled from the spec: the utils function get_chunked_mean is missing
from the given sources. The spec says the series is partitioned into
fixed-length chunks of running_window_length samples (the last chunk
possibly shorter) and each chunk is averaged. -/
def chunkedMean (x : List ℚ) (w : ℕ) : List ℚ :=
  if _hw : w = 0 then []
  else if _hx : x = [] then []
  else mean (x.take w) :: chunkedMean (x.drop w) w
termination_by x.length
decreasing_by
  simp only [List.length_drop]
  have : 0 < x.length := List.length_pos.2 _hx
  omega

/-- Modelled from the spec: the utils function get_yearly_mean is missing
from the given sources. The spec says yearly means are computed exactly
from the per-sample year labels; distinct years are visited in increasing
order (numpy unique). -/
def yearlyMean (x : List ℚ) (years : List ℤ) : List ℚ :=
  let ys := List.insertionSort (fun a b => a ≤ b) years.dedup
  ys.map (fun y => mean (filterByMask (years.map (fun z => decide (z = y))) x))

/-- Runtime errors of apply_location; the source raises plain ValueErrors,
distinguished here by raise site: the physical-range check naming the
offending series, the missing-time-information error, and any error
propagating out of the per-month pipeline. -/
inductive PipelineError
  | rangeError (series : String)
  | modeError
  | stepFailure
deriving DecidableEq

/-- Condition np.any((x < lo) | (x > hi)) of the physical-range check. -/
def outsideRange (lo hi : ℚ) (x : List ℚ) : Bool :=
  x.any (fun v => decide (v < lo) || decide (hi < v))

/-- Embedding of ISIMIP._check_reasonable_physical_range. -/
def checkPhysicalRange (cfg : ISIMIPConfig) (obsHist cmHist cmFuture : List ℚ) :
    Except PipelineError Unit :=
  match cfg.reasonablePhysicalRange with
  | none => .ok ()
  | some (lo, hi) =>
    if outsideRange lo hi obsHist then .error (.rangeError "obs_hist")
    else if outsideRange lo hi cmHist then .error (.rangeError "cm_hist")
    else if outsideRange lo hi cmFuture then .error (.rangeError "cm_future")
    else .ok ()

/-- OLS slope of scipy.stats.linregress (0 when the regressor is
degenerate, where scipy reports nan). -/
def olsSlope (t y : List ℚ) : ℚ :=
  let tm := mean t
  let ym := mean y
  let den := (t.map (fun ti => (ti - tm) ^ 2)).sum
  if den = 0 then 0
  else (List.zipWith (fun ti yi => (ti - tm) * (yi - ym)) t y).sum / den

/-- Embedding of np.repeat(a, w): each entry repeated w times in place. -/
def repeatEach : List ℚ → ℕ → List ℚ
  | [], _ => []
  | q :: qs, w => List.replicate w q ++ repeatEach qs w

/-- Annual means regressed by _step3_remove_trend: chunked means in the
label-free path, yearly means otherwise. -/
def annualMeansOf (cfg : ISIMIPConfig) (x : List ℚ) (years : Option (List ℤ)) : List ℚ :=
  match years with
  | none => chunkedMean x cfg.runningWindowLength
  | some ys => yearlyMean x ys

/-- Annual trend of _step3_remove_trend: slope * (t - mean t) under the
condition regression.pvalue < 0.05 and trend_removal_with_significance_test,
zeros otherwise. The regression p-value has no exact rational form (it
comes from the t-distribution), so the boolean outcome of
regression.pvalue < 0.05 is supplied as the oracle pvLt05, a function of
the regressed annual means. -/
def annualTrendOf (cfg : ISIMIPConfig) (pvLt05 : List ℚ → Bool) (ms : List ℚ) : List ℚ :=
  let ts : List ℚ := List.map (fun i : ℕ => (i : ℚ)) (List.range ms.length)
  if pvLt05 ms && cfg.trendRemovalWithSignificanceTest then
    ts.map (fun ti => olsSlope ts ms * (ti - mean ts))
  else
    List.replicate ts.length 0

/-- Per-sample trend of _step3_remove_trend:
np.repeat(annual_trend, running_window_length)[0 : x.size]. -/
def trendOf (cfg : ISIMIPConfig) (pvLt05 : List ℚ → Bool) (x : List ℚ)
    (years : Option (List ℤ)) : List ℚ :=
  (repeatEach (annualTrendOf cfg pvLt05 (annualMeansOf cfg x years))
    cfg.runningWindowLength).take x.length

/-- Embedding of ISIMIP._step3_remove_trend. none models the ValueError
numpy raises in x - trend when the trend vector is shorter than x (which
the yearly path can produce). -/
def step3RemoveTrend (cfg : ISIMIPConfig) (pvLt05 : List ℚ → Bool)
    (x : List ℚ) (years : Option (List ℤ)) : Option (List ℚ × List ℚ) :=
  let trend := trendOf cfg pvLt05 x years
  (npSub x trend).map (fun d => (d, trend))

/-- Embedding of ISIMIP.step1 (placeholder: rsds handling is a TODO in
the source; scale stays None). -/
def step1 (cfg : ISIMIPConfig) (obsHist cmHist cmFuture : List ℚ) :
    List ℚ × List ℚ × List ℚ × Option ℚ :=
  (obsHist, cmHist, cmFuture, none)

/-- Embedding of ISIMIP.step2. The source imputes NaN entries of
prsnratio series by iecdf sampling; rationals carry no NaN, so np.isnan
is identically false in this embedding and np.where(isnan, imputed, x)
reduces to x in both branches. -/
def step2 (cfg : ISIMIPConfig) (obsHist cmHist cmFuture : List ℚ) :
    List ℚ × List ℚ × List ℚ :=
  if cfg.varName = "prsnratio" then (obsHist, cmHist, cmFuture)
  else (obsHist, cmHist, cmFuture)

/-- Embedding of ISIMIP.step3. -/
def step3 (cfg : ISIMIPConfig) (pvLt05 : List ℚ → Bool)
    (obsHist cmHist cmFuture : List ℚ)
    (yearsObsHist yearsCmHist yearsCmFuture : Option (List ℤ)) :
    Option (List ℚ × List ℚ × List ℚ × List ℚ) :=
  if cfg.detrending then
    match step3RemoveTrend cfg pvLt05 obsHist yearsObsHist,
        step3RemoveTrend cfg pvLt05 cmHist yearsCmHist,
        step3RemoveTrend cfg pvLt05 cmFuture yearsCmFuture with
    | some (oh, _), some (ch, _), some (cf, trend) => some (oh, ch, cf, trend)
    | _, _, _ => none
  else
    some (obsHist, cmHist, cmFuture, List.replicate cmFuture.length 0)

/-- Embedding of ISIMIP.step4. The uniform draws (an external randomness
concern per the spec) are supplied as the streams rndLower and rndUpper;
the source draws exactly one value per true mask entry. none models the
two runtime errors the source's upper branch can raise: the NameError
when the lower-mask variable is unbound because the lower branch did not
run, and the ValueError when the assigned array length differs from the
number of true entries of the target mask; numpy broadcasts a length-1
assigned array over the mask, which is modelled by the setWhere branch.
The source assigns the upper-side values to the positions of the
LOWER-threshold mask (line 449), which is reproduced faithfully here. -/
def step4 (cfg : ISIMIPConfig) (rndLower rndUpper : ℕ → ℚ) (cmFuture : List ℚ) :
    Option (List ℚ) :=
  let lowerResult :=
    if cfg.hasLowerBound && cfg.hasLowerThreshold then
      let maskL := maskBeyondLower cfg cmFuture
      let draws := sortQ ((List.range (countTrue maskL)).map rndLower)
      let vals := sortLike draws (filterByMask maskL cmFuture)
      (scatterWhere maskL vals cmFuture, some maskL)
    else (cmFuture, none)
  let cm1 := lowerResult.1
  if cfg.hasUpperBound && cfg.hasUpperThreshold then
    let maskU := maskBeyondUpper cfg cm1
    let draws := sortQ ((List.range (countTrue maskU)).map rndUpper)
    let vals := sortLike draws (filterByMask maskU cm1)
    match lowerResult.2 with
    | none => none
    | some maskL =>
      if countTrue maskL = vals.length then some (scatterWhere maskL vals cm1)
      else if vals.length = 1 then some (setWhere maskL (vals.getD 0 0) cm1)
      else none
  else some cm1

/-- Embedding of ISIMIP._step5_transfer_trend. The invalid-method raise of
the source is unreachable after attrs validation (TrendMethod is a closed
enumeration here). -/
def step5TransferTrend (cfg : ISIMIPConfig) (sp : SpecialFns)
    (obsHist cmHist cmFuture : List ℚ) : List ℚ :=
  let p := ecdfM obsHist obsHist
  let qObsHist := obsHist
  let qCmFuture := iecdfM cmFuture p
  let qCmHist := iecdfM cmHist p
  match cfg.trendPreservationMethod with
  | .additive =>
      List.zipWith (fun o d => o + d) obsHist
        (List.zipWith (fun a b => a - b) qCmFuture qCmHist)
  | .multiplicative =>
      let delta := (List.zipWith (fun f h => if h = 0 then 1 else f / h) qCmFuture qCmHist).map
        (fun d => max (1/100) (min 100 d))
      List.zipWith (fun o d => o * d) obsHist delta
  | .mixed =>
      (List.range obsHist.length).map (fun i =>
        let o := obsHist.getD i 0
        let qo := qObsHist.getD i 0
        let qh := qCmHist.getD i 0
        let qf := qCmFuture.getD i 0
        let gamma : ℚ :=
          if qo ≤ qh then 1
          else if qo < 9 * qh then 1/2 * (1 + sp.cosFn (qo / qh - 1) * sp.piVal / 8)
          else 0
        let deltaAdd := qf - qh
        let deltaMult := max (1/100) (min 100 (if qh = 0 then 1 else qf / qh))
        gamma * o * deltaMult + (1 - gamma) * (o + deltaAdd))
  | .bounded =>
      let a := cfg.lowerBound.toQ
      let b := cfg.upperBound.toQ
      (List.range obsHist.length).map (fun i =>
        let o := obsHist.getD i 0
        let qh := qCmHist.getD i 0
        let qf := qCmFuture.getD i 0
        if iscloseQ qh qf then o
        else if qf < qh then a + (o - a) * (qf - a) / (qh - a)
        else b - (b - o) * (b - qf) / (b - qh))

/-- Embedding of ISIMIP.step5. In the restricted branch (flag false) the
source computes the transfer into a local variable but falls off the end
of the function without a return statement, so Python returns None:
modelled as none. -/
def step5 (cfg : ISIMIPConfig) (sp : SpecialFns)
    (obsHist cmHist cmFuture : List ℚ) : Option (List ℚ) :=
  if cfg.trendTransferOnlyForValuesWithinThreshold then
    some (step5TransferTrend cfg sp obsHist cmHist cmFuture)
  else
    none

/-- Embedding of ISIMIP._step6_calculate_percent_values_beyond_threshold. -/
def percentBeyond (mask : List Bool) : ℚ := (countTrue mask : ℚ) / (mask.length : ℚ)

/-- Embedding of ISIMIP._step6_get_P_obs_future. -/
def getPObsFuture (pObsHist pCmHist pCmFuture : ℚ) : ℚ :=
  if iscloseQ pCmHist pObsHist then pCmFuture
  else if pCmFuture ≤ pCmHist ∧ pObsHist < pCmHist then pObsHist * pCmFuture / pCmHist
  else if pCmHist ≤ pCmFuture ∧ pCmHist < pObsHist then
    1 - (1 - pObsHist) * (1 - pCmFuture) / (1 - pCmHist)
  else pObsHist + pCmFuture - pCmHist

/-- Embedding of ISIMIP._step6_get_nr_of_entries_to_set_to_bound. The
returned Python int is nonnegative in every reachable use (the three
fractions lie in [0,1]), so toNat is the identity there. -/
def nrEntriesToBound (maskObsHist maskCmHist maskCmFuture : List Bool) : ℕ :=
  let pObsFuture := getPObsFuture (percentBeyond maskObsHist) (percentBeyond maskCmHist)
    (percentBeyond maskCmFuture)
  (pyRound ((maskCmFuture.length : ℚ) * pObsFuture)).toNat

/-- Embedding of ISIMIP._step6_get_mask_for_entries_to_set_to_lower_bound
(composed with the transform-nr-to-mask helper, which builds maskFirst). -/
def maskEntriesLower (cfg : ISIMIPConfig) (ohS chS cfS : List ℚ) : List Bool :=
  maskFirst cfS.length (nrEntriesToBound (maskBeyondLower cfg ohS)
    (maskBeyondLower cfg chS) (maskBeyondLower cfg cfS))

/-- Embedding of ISIMIP._step6_get_mask_for_entries_to_set_to_upper_bound
(composed with the transform-nr-to-mask helper, which builds maskLast). -/
def maskEntriesUpper (cfg : ISIMIPConfig) (ohS chS cfS : List ℚ) : List Bool :=
  maskLast cfS.length (nrEntriesToBound (maskBeyondUpper cfg ohS)
    (maskBeyondUpper cfg chS) (maskBeyondUpper cfg cfS))

/-- Embedding of ISIMIP._step6_adjust_values_between_thresholds. -/
def adjustBetween (cfg : ISIMIPConfig) (D : Dist) (sp : SpecialFns)
    (ohS ofS chS cfS : List ℚ) : List ℚ :=
  let fitCf := D.fit cfS
  let fitOh := D.fit ohS
  let fitOf := D.fit ofS
  let fitCh := D.fit chS
  let cdfCf := thresholdCdfVals (cfS.map (D.cdf fitCf))
  let cdfOh := interpSortedCdfVals (thresholdCdfVals (ohS.map (D.cdf fitOh))) cdfCf.length
  let cdfCh := interpSortedCdfVals (thresholdCdfVals (chS.map (D.cdf fitCh))) cdfCf.length
  if !cfg.eventLikelihoodAdjustment then
    cdfCf.map (D.ppf fitOf)
  else
    let lOh := cdfOh.map sp.logit
    let lCh := cdfCh.map sp.logit
    let lCf := cdfCf.map sp.logit
    let deltaLogOdds := List.zipWith (fun a b => max (-sp.logTen) (min sp.logTen (a - b))) lCf lCh
    ((List.zipWith (fun a b => a + b) lOh deltaLogOdds).map sp.expit).map (D.ppf fitOf)

/-- Sorted-order part of ISIMIP.step6: everything the source performs on
the sorted copy of cm_future before scattering back into pre-sort order. -/
def step6Sorted (cfg : ISIMIPConfig) (D : Dist) (sp : SpecialFns)
    (obsHist obsFuture cmHist cmFuture : List ℚ) : List ℚ :=
  let cfS := gather cmFuture (argsort cmFuture 0) 0
  let ohS := sortQ obsHist
  let ofS := sortQ obsFuture
  let chS := sortQ cmHist
  let maskL := if cfg.hasLowerThreshold then maskEntriesLower cfg ohS chS cfS
    else List.replicate cfS.length false
  let maskU := if cfg.hasUpperThreshold then maskEntriesUpper cfg ohS chS cfS
    else List.replicate cfS.length false
  let afterB := setWhere maskU cfg.upperBound.toQ (setWhere maskL cfg.lowerBound.toQ cfS)
  let maskNot := List.zipWith (fun a b => !a && !b) maskL maskU
  let mapped := adjustBetween cfg D sp (valuesBetween cfg ohS) (valuesBetween cfg ofS)
    (valuesBetween cfg chS) (filterByMask maskNot afterB)
  scatterWhere maskNot mapped afterB

/-- Embedding of ISIMIP.step6: the sorted-order computation scattered back
into the original pre-sort order through argsort(argsort(cm_future)). -/
def step6 (cfg : ISIMIPConfig) (D : Dist) (sp : SpecialFns)
    (obsHist obsFuture cmHist cmFuture : List ℚ) : List ℚ :=
  gather (step6Sorted cfg D sp obsHist obsFuture cmHist cmFuture)
    (argsort (argsort cmFuture 0) 0) 0

/-- Embedding of ISIMIP.step7. -/
def step7 (cfg : ISIMIPConfig) (cmFuture trendCmFuture : List ℚ) : Option (List ℚ) :=
  if cfg.detrending then npAdd cmFuture trendCmFuture else some cmFuture

/-- Embedding of ISIMIP.step8 (placeholder). -/
def step8 (_cfg : ISIMIPConfig) (cmFuture : List ℚ) (_scale : Option ℚ) : List ℚ :=
  cmFuture

/-- Embedding of ISIMIP._apply_on_window: the eight steps in order. -/
def applyOnWindow (cfg : ISIMIPConfig) (D : Dist) (sp : SpecialFns)
    (pvLt05 : List ℚ → Bool) (rndLower rndUpper : ℕ → ℚ)
    (obsHist cmHist cmFuture : List ℚ)
    (yearsObsHist yearsCmHist yearsCmFuture : Option (List ℤ)) : Option (List ℚ) :=
  let (oh1, ch1, cf1, scale) := step1 cfg obsHist cmHist cmFuture
  let (oh2, ch2, cf2) := step2 cfg oh1 ch1 cf1
  match step3 cfg pvLt05 oh2 ch2 cf2 yearsObsHist yearsCmHist yearsCmFuture with
  | none => none
  | some (oh3, ch3, cf3, trendCf) =>
    match step4 cfg rndLower rndUpper cf3 with
    | none => none
    | some cf4 =>
      match step5 cfg sp oh3 ch3 cf4 with
      | none => none
      | some obsFuture =>
        let cf5 := step6 cfg D sp oh3 obsFuture ch3 cf4
        match step7 cfg cf5 trendCf with
        | none => none
        | some cf6 => some (step8 cfg cf6 scale)

/-- Calendar timestamp carrying the fields the source reads through the
utils month/year accessors. -/
structure Date where
  yearN : ℤ
  monthN : ℕ
deriving DecidableEq

/-- Mask month(time) == i_month of the per-month partition. -/
def monthMask (ts : List Date) (m : ℕ) : List Bool :=
  ts.map (fun t => decide (t.monthN = m))

/-- Year labels of a list of timestamps. -/
def yearsOf (ts : List Date) : List ℤ := ts.map (fun t => t.yearN)

/-- Embedding of ISIMIP.apply_location. Randomness for step 4 is supplied
per calendar month through the two streams. -/
def applyLocation (cfg : ISIMIPConfig) (D : Dist) (sp : SpecialFns)
    (pvLt05 : List ℚ → Bool) (rndLower rndUpper : ℕ → ℕ → ℚ)
    (obsHist cmHist cmFuture : List ℚ)
    (timeObsHist timeCmHist timeCmFuture : Option (List Date)) :
    Except PipelineError (List ℚ) :=
  match checkPhysicalRange cfg obsHist cmHist cmFuture with
  | .error e => .error e
  | .ok _ =>
    if cfg.runningWindowMode then .ok cmFuture
    else
      match timeObsHist, timeCmHist, timeCmFuture with
      | some tOh, some tCh, some tCf =>
        let monthResult := fun (m : ℕ) =>
          applyOnWindow cfg D sp pvLt05 (rndLower m) (rndUpper m)
            (filterByMask (monthMask tOh m) obsHist)
            (filterByMask (monthMask tCh m) cmHist)
            (filterByMask (monthMask tCf m) cmFuture)
            (some (yearsOf (filterByMask (monthMask tOh m) tOh)))
            (some (yearsOf (filterByMask (monthMask tCh m) tCh)))
            (some (yearsOf (filterByMask (monthMask tCf m) tCf)))
        let debiased := (List.range 12).foldl (fun acc m =>
          match acc, monthResult (m + 1) with
          | some out, some vals => some (scatterWhere (monthMask tCf (m + 1)) vals out)
          | _, _ => none) (some (List.replicate cmFuture.length 0))
        match debiased with
        | some out => .ok out
        | none => .error .stepFailure
      | _, _, _ => .error .modeError

/-- Rule of claim C2, written following the claim's own wording, to be
compared with the source embedding getPObsFuture. -/
def specPObsFutureRule (pObsHist pCmHist pCmFuture : ℚ) : ℚ :=
  if iscloseQ pCmHist pObsHist then pCmFuture
  else if pCmFuture ≤ pCmHist ∧ pCmHist > pObsHist then pObsHist * pCmFuture / pCmHist
  else if pCmFuture ≥ pCmHist ∧ pCmHist < pObsHist then
    1 - (1 - pObsHist) * (1 - pCmFuture) / (1 - pCmHist)
  else pObsHist + pCmFuture - pCmHist

/-- C10: for all threshold-exceedance fractions in [0,1] the step-6 target
fraction returned by _step6_get_P_obs_future also lies in [0,1] (each
division is guarded by a branch condition making its denominator positive). -/
theorem claim_C10_P_obs_future_in_unit_interval (po ph pf : ℚ)
    (h0o : 0 ≤ po) (h1o : po ≤ 1) (h0h : 0 ≤ ph) (h1h : ph ≤ 1)
    (h0f : 0 ≤ pf) (h1f : pf ≤ 1) :
    0 ≤ getPObsFuture po ph pf ∧ getPObsFuture po ph pf ≤ 1 := by
  unfold getPObsFuture
  split_ifs with h1 h2 h3
  · exact ⟨h0f, h1f⟩
  · have hph : 0 < ph := lt_of_le_of_lt h0o h2.2
    constructor
    · exact div_nonneg (mul_nonneg h0o h0f) (le_of_lt hph)
    · rw [div_le_one hph]
      nlinarith [h2.1]
  · have hph : ph < 1 := lt_of_lt_of_le h3.2 h1o
    have hpos : 0 < 1 - ph := by linarith
    constructor
    · have hle : (1 - po) * (1 - pf) / (1 - ph) ≤ 1 := by
        rw [div_le_one hpos]
        nlinarith
      linarith
    · have hnn : 0 ≤ (1 - po) * (1 - pf) / (1 - ph) :=
        div_nonneg (mul_nonneg (by linarith) (by linarith)) (le_of_lt hpos)
      linarith
  · push_neg at h2 h3
    rcases le_total pf ph with hc | hc
    · have := h2 hc
      constructor <;> linarith
    · have := h3 hc
      constructor <;> linarith

/-- Witness for C10 at a concrete input in the proportional-scaling branch. -/
theorem claim_C10_witness :
    0 ≤ getPObsFuture (1/4) (1/2) (1/4) ∧ getPObsFuture (1/4) (1/2) (1/4) ≤ 1 :=
  claim_C10_P_obs_future_in_unit_interval (1/4) (1/2) (1/4)
    (by norm_num) (by norm_num) (by norm_num) (by norm_num) (by norm_num) (by norm_num)

/-- C2: on fractions in [0,1] the source's _step6_get_P_obs_future agrees
with the claim's 4-branch rule, and _step6_get_nr_of_entries_to_set_to_bound
returns that fraction times the number of sorted cm_future entries, rounded
(Python round, half to even). -/
theorem claim_C2_step6_target_fraction (po ph pf : ℚ)
    (_h0o : 0 ≤ po) (_h1o : po ≤ 1) (_h0h : 0 ≤ ph) (_h1h : ph ≤ 1)
    (_h0f : 0 ≤ pf) (_h1f : pf ≤ 1) :
    getPObsFuture po ph pf = specPObsFutureRule po ph pf ∧
    ∀ maskObsHist maskCmHist maskCmFuture : List Bool,
      nrEntriesToBound maskObsHist maskCmHist maskCmFuture =
        (pyRound ((maskCmFuture.length : ℚ) *
          specPObsFutureRule (percentBeyond maskObsHist) (percentBeyond maskCmHist)
            (percentBeyond maskCmFuture))).toNat := by
  constructor
  · rfl
  · intro mo mh mf
    rfl

/-- Witness for C2 at concrete fractions in the proportional branch. -/
theorem claim_C2_witness :
    getPObsFuture (1/4) (1/2) (1/8) = specPObsFutureRule (1/4) (1/2) (1/8) ∧
    ∀ maskObsHist maskCmHist maskCmFuture : List Bool,
      nrEntriesToBound maskObsHist maskCmHist maskCmFuture =
        (pyRound ((maskCmFuture.length : ℚ) *
          specPObsFutureRule (percentBeyond maskObsHist) (percentBeyond maskCmHist)
            (percentBeyond maskCmFuture))).toNat :=
  claim_C2_step6_target_fraction (1/4) (1/2) (1/8)
    (by norm_num) (by norm_num) (by norm_num) (by norm_num) (by norm_num) (by norm_num)

/-- C9: with running_window_mode enabled, apply_location returns cm_future
unchanged right after the physical-range validation, without executing the
8-step pipeline. -/
theorem claim_C9_running_window_passthrough (cfg : ISIMIPConfig) (D : Dist)
    (sp : SpecialFns) (pvLt05 : List ℚ → Bool) (rndLower rndUpper : ℕ → ℕ → ℚ)
    (obsHist cmHist cmFuture : List ℚ)
    (timeObsHist timeCmHist timeCmFuture : Option (List Date))
    (hrw : cfg.runningWindowMode = true)
    (hchk : checkPhysicalRange cfg obsHist cmHist cmFuture = .ok ()) :
    applyLocation cfg D sp pvLt05 rndLower rndUpper obsHist cmHist cmFuture
      timeObsHist timeCmHist timeCmFuture = .ok cmFuture := by
  unfold applyLocation
  rw [hchk, hrw]
  simp

/-- Witness for C9 at a concrete configuration and input. -/
def cfgMini : ISIMIPConfig :=
  { trendPreservationMethod := .additive
    detrending := false
    reasonablePhysicalRange := none
    varName := "tas"
    lowerBound := .negInf
    lowerThreshold := .negInf
    upperBound := .posInf
    upperThreshold := .posInf
    trendRemovalWithSignificanceTest := true
    trendTransferOnlyForValuesWithinThreshold := true
    eventLikelihoodAdjustment := false
    runningWindowMode := true
    runningWindowLength := 31
    runningWindowStepLength := 1 }

/-- Trivial distribution used by concrete witnesses. -/
def distId : Dist := { fit := fun _ => [], cdf := fun _ x => x, ppf := fun _ p => p }

/-- Zero-valued transcendental primitives for concrete witnesses (their
values never influence the claims settled here). -/
def spZero : SpecialFns :=
  { logit := fun _ => 0, expit := fun _ => 0, logTen := 0, cosFn := fun _ => 0, piVal := 0 }

theorem claim_C9_witness :
    applyLocation cfgMini distId spZero (fun _ => true) (fun _ _ => 0) (fun _ _ => 0)
      [1, 2] [3, 4] [5, 6] none none none = .ok [5, 6] :=
  claim_C9_running_window_passthrough cfgMini distId spZero (fun _ => true)
    (fun _ _ => 0) (fun _ _ => 0) [1, 2] [3, 4] [5, 6] none none none rfl rfl

theorem outsideRange_iff (lo hi : ℚ) (x : List ℚ) :
    outsideRange lo hi x = true ↔ ∃ v ∈ x, v < lo ∨ hi < v := by
  simp [outsideRange]

theorem checkPhysicalRange_eq {cfg : ISIMIPConfig} {lo hi : ℚ}
    (hrange : cfg.reasonablePhysicalRange = some (lo, hi))
    (obsHist cmHist cmFuture : List ℚ) :
    checkPhysicalRange cfg obsHist cmHist cmFuture =
      if outsideRange lo hi obsHist then .error (.rangeError "obs_hist")
      else if outsideRange lo hi cmHist then .error (.rangeError "cm_hist")
      else if outsideRange lo hi cmFuture then .error (.rangeError "cm_future")
      else .ok () := by
  unfold checkPhysicalRange
  rw [hrange]

/-- C8: with reasonable_physical_range configured, apply_location fails
with the error naming an offending series exactly when some value of
obs_hist, cm_hist or cm_future lies outside [lo, hi]; the check is
sequenced before every pipeline stage, so on failure no debiased output
is produced for the location. -/
theorem claim_C8_physical_range_guard (cfg : ISIMIPConfig) (D : Dist)
    (sp : SpecialFns) (pvLt05 : List ℚ → Bool) (rndLower rndUpper : ℕ → ℕ → ℚ)
    (obsHist cmHist cmFuture : List ℚ)
    (timeObsHist timeCmHist timeCmFuture : Option (List Date))
    (lo hi : ℚ) (hrange : cfg.reasonablePhysicalRange = some (lo, hi)) :
    (∃ s, applyLocation cfg D sp pvLt05 rndLower rndUpper obsHist cmHist cmFuture
        timeObsHist timeCmHist timeCmFuture = .error (.rangeError s)) ↔
      ((∃ v ∈ obsHist, v < lo ∨ hi < v) ∨ (∃ v ∈ cmHist, v < lo ∨ hi < v) ∨
        (∃ v ∈ cmFuture, v < lo ∨ hi < v)) := by
  rw [← outsideRange_iff, ← outsideRange_iff, ← outsideRange_iff]
  constructor
  · rintro ⟨s, hs⟩
    unfold applyLocation at hs
    rw [checkPhysicalRange_eq hrange] at hs
    by_cases h1 : outsideRange lo hi obsHist
    · exact Or.inl h1
    · by_cases h2 : outsideRange lo hi cmHist
      · exact Or.inr (Or.inl h2)
      · by_cases h3 : outsideRange lo hi cmFuture
        · exact Or.inr (Or.inr h3)
        · exfalso
          simp only [h1, h2, h3, if_false, Bool.false_eq_true] at hs
          split at hs
          · exact absurd hs (by simp)
          · split at hs
            · split at hs
              · exact absurd hs (by simp)
              · simp at hs
            · simp at hs
  · intro hout
    unfold applyLocation
    rw [checkPhysicalRange_eq hrange]
    by_cases h1 : outsideRange lo hi obsHist
    · exact ⟨"obs_hist", by simp [h1]⟩
    · by_cases h2 : outsideRange lo hi cmHist
      · exact ⟨"cm_hist", by simp [h1, h2]⟩
      · have h3 : outsideRange lo hi cmFuture := by
          rcases hout with h | h | h
          · exact absurd h h1
          · exact absurd h h2
          · exact h
        exact ⟨"cm_future", by simp [h1, h2, h3]⟩

/-- Concrete configuration with a physical range, for the C8 witness. -/
def cfgRange : ISIMIPConfig :=
  { cfgMini with reasonablePhysicalRange := some (0, 100) }

theorem claim_C8_witness :
    (∃ s, applyLocation cfgRange distId spZero (fun _ => true) (fun _ _ => 0) (fun _ _ => 0)
        [1, 200] [3, 4] [5, 6] none none none = .error (.rangeError s)) ↔
      ((∃ v ∈ ([1, 200] : List ℚ), v < 0 ∨ 100 < v) ∨
        (∃ v ∈ ([3, 4] : List ℚ), v < 0 ∨ 100 < v) ∨
        (∃ v ∈ ([5, 6] : List ℚ), v < 0 ∨ 100 < v)) :=
  claim_C8_physical_range_guard cfgRange distId spZero (fun _ => true)
    (fun _ _ => 0) (fun _ _ => 0) [1, 200] [3, 4] [5, 6] none none none 0 100 rfl

/-- C5: the claim says the restricted branch of step 5 (transfer flag
false) returns a pseudo-observation series of obs_hist's length with the
values outside the thresholds passed through; the source's restricted
branch has no return statement, so the Python function returns None for
every input, which this theorem exhibits on the embedding. -/
theorem claim_C5_step5_returns_none (cfg : ISIMIPConfig) (sp : SpecialFns)
    (obsHist cmHist cmFuture : List ℚ)
    (hflag : cfg.trendTransferOnlyForValuesWithinThreshold = false) :
    step5 cfg sp obsHist cmHist cmFuture = none := by
  simp [step5, hflag]

/-- Concrete configuration exercising the restricted step-5 branch. -/
def cfgNoTransferFlag : ISIMIPConfig :=
  { cfgMini with trendTransferOnlyForValuesWithinThreshold := false }

theorem claim_C5_witness :
    step5 cfgNoTransferFlag spZero [1, 2] [3, 4] [5, 6] = none :=
  claim_C5_step5_returns_none cfgNoTransferFlag spZero [1, 2] [3, 4] [5, 6] rfl

theorem repeatEach_length (a : List ℚ) (w : ℕ) : (repeatEach a w).length = a.length * w := by
  induction a with
  | nil => simp [repeatEach]
  | cons q qs ih =>
    rw [repeatEach, List.length_append, List.length_replicate, ih, List.length_cons]
    ring

theorem chunkedMean_length_ge {w : ℕ} (hw : 0 < w) (x : List ℚ) :
    x.length ≤ (chunkedMean x w).length * w := by
  have H : ∀ (n : ℕ) (x : List ℚ), x.length ≤ n → x.length ≤ (chunkedMean x w).length * w := by
    intro n
    induction n with
    | zero =>
      intro x hx
      have hxe : x = [] := List.length_eq_zero.1 (Nat.le_zero.1 hx)
      subst hxe
      simp
    | succ n ih =>
      intro x hx
      by_cases hxe : x = []
      · subst hxe; simp
      · have hlen : 0 < x.length := List.length_pos.2 hxe
        rw [chunkedMean]
        simp only [hw.ne', dite_false, hxe]
        have hd := ih (x.drop w) (by simp only [List.length_drop]; omega)
        simp only [List.length_drop] at hd
        simp only [List.length_cons]
        have hmul : ((chunkedMean (x.drop w) w).length + 1) * w =
            (chunkedMean (x.drop w) w).length * w + w := by ring
        omega
  exact H x.length x le_rfl

/-- Number of annual chunks _step3_remove_trend regresses over. -/
def numAnnualChunks (cfg : ISIMIPConfig) (x : List ℚ) (years : Option (List ℤ)) : ℕ :=
  (annualMeansOf cfg x years).length

theorem annualTrendOf_length (cfg : ISIMIPConfig) (pvLt05 : List ℚ → Bool) (ms : List ℚ) :
    (annualTrendOf cfg pvLt05 ms).length = ms.length := by
  unfold annualTrendOf
  split
  · rw [List.length_map, List.length_map, List.length_range]
  · rw [List.length_replicate, List.length_map, List.length_range]

theorem trendOf_length (cfg : ISIMIPConfig) (pvLt05 : List ℚ → Bool) (x : List ℚ)
    (years : Option (List ℤ)) :
    (trendOf cfg pvLt05 x years).length =
      min x.length (numAnnualChunks cfg x years * cfg.runningWindowLength) := by
  unfold trendOf numAnnualChunks
  rw [List.length_take, repeatEach_length, annualTrendOf_length]

/-- Success shape of _step3_remove_trend when the repeated annual trend
covers the series: the trend vector has exactly the series' length and the
subtraction is elementwise. -/
theorem step3RemoveTrend_covered (cfg : ISIMIPConfig) (pvLt05 : List ℚ → Bool)
    (x : List ℚ) (years : Option (List ℤ))
    (hle : x.length ≤ numAnnualChunks cfg x years * cfg.runningWindowLength) :
    step3RemoveTrend cfg pvLt05 x years =
        some (List.zipWith (fun u v => u - v) x (trendOf cfg pvLt05 x years),
          trendOf cfg pvLt05 x years) ∧
      (trendOf cfg pvLt05 x years).length = x.length := by
  have hT := trendOf_length cfg pvLt05 x years
  have hlen : (trendOf cfg pvLt05 x years).length = x.length := by omega
  constructor
  · unfold step3RemoveTrend
    simp [npSub, hlen]
  · exact hlen

/-- Failure shape of _step3_remove_trend: when k*w is neither at least the
series' length nor equal to 1, the trend can neither cover the series nor
be broadcast, and numpy raises on the shape mismatch. -/
theorem step3RemoveTrend_none (cfg : ISIMIPConfig) (pvLt05 : List ℚ → Bool)
    (x : List ℚ) (years : Option (List ℤ))
    (hne : numAnnualChunks cfg x years * cfg.runningWindowLength ≠ 1)
    (hlt : numAnnualChunks cfg x years * cfg.runningWindowLength < x.length) :
    step3RemoveTrend cfg pvLt05 x years = none := by
  have hT := trendOf_length cfg pvLt05 x years
  have h1 : ¬ (x.length = (trendOf cfg pvLt05 x years).length) := by omega
  have h2 : ¬ ((trendOf cfg pvLt05 x years).length = 1) := by omega
  unfold step3RemoveTrend npSub
  dsimp only
  rw [if_neg h1, if_neg h2]
  rfl

/-- Broadcast shape of _step3_remove_trend: with exactly one annual chunk
and window length 1 (k*w = 1) and a longer series, numpy broadcasts the
single-entry trend, so the subtraction succeeds and the returned trend
vector has length 1, not the series' length. -/
theorem step3RemoveTrend_broadcast (cfg : ISIMIPConfig) (pvLt05 : List ℚ → Bool)
    (x : List ℚ) (years : Option (List ℤ))
    (h1 : numAnnualChunks cfg x years * cfg.runningWindowLength = 1)
    (h2 : 1 < x.length) :
    step3RemoveTrend cfg pvLt05 x years =
      some (x.map (fun u => u - (trendOf cfg pvLt05 x years).getD 0 0),
        trendOf cfg pvLt05 x years) := by
  have hT := trendOf_length cfg pvLt05 x years
  have hb : (trendOf cfg pvLt05 x years).length = 1 := by omega
  have hne : ¬ (x.length = (trendOf cfg pvLt05 x years).length) := by omega
  unfold step3RemoveTrend npSub
  dsimp only
  rw [if_neg hne, if_pos hb]
  rfl

/-- Any successful result of _step3_remove_trend returns the trend vector
itself, whose length is min(|x|, k*w). -/
theorem step3RemoveTrend_trend_component (cfg : ISIMIPConfig) (pvLt05 : List ℚ → Bool)
    (x : List ℚ) (years : Option (List ℤ)) (d t : List ℚ)
    (hres : step3RemoveTrend cfg pvLt05 x years = some (d, t)) :
    t = trendOf cfg pvLt05 x years := by
  unfold step3RemoveTrend at hres
  dsimp only at hres
  cases hnp : npSub x (trendOf cfg pvLt05 x years) with
  | none => rw [hnp] at hres; simp at hres
  | some z =>
    rw [hnp] at hres
    simp only [Option.map_some', Option.some.injEq, Prod.mk.injEq] at hres
    exact hres.2.symm

theorem step3RemoveTrend_chunked (cfg : ISIMIPConfig) (pvLt05 : List ℚ → Bool)
    (x : List ℚ) (hw : 0 < cfg.runningWindowLength) :
    step3RemoveTrend cfg pvLt05 x none =
        some (List.zipWith (fun u v => u - v) x (trendOf cfg pvLt05 x none),
          trendOf cfg pvLt05 x none) ∧
      (trendOf cfg pvLt05 x none).length = x.length :=
  step3RemoveTrend_covered cfg pvLt05 x none (chunkedMean_length_ge hw x)

theorem annualTrendOf_flag_false {cfg : ISIMIPConfig} (pvLt05 : List ℚ → Bool)
    (ms : List ℚ) (hflag : cfg.trendRemovalWithSignificanceTest = false) :
    annualTrendOf cfg pvLt05 ms = List.replicate ms.length 0 := by
  unfold annualTrendOf
  simp [hflag]

theorem repeatEach_replicate_zero (k w : ℕ) :
    repeatEach (List.replicate k 0) w = List.replicate (k * w) 0 := by
  induction k with
  | zero => simp [repeatEach]
  | succ k ih =>
    rw [List.replicate_succ, repeatEach, ih, ← List.replicate_add]
    congr 1
    ring

theorem trendOf_flag_false (cfg : ISIMIPConfig) (pvLt05 : List ℚ → Bool)
    (x : List ℚ) (years : Option (List ℤ))
    (hflag : cfg.trendRemovalWithSignificanceTest = false) :
    trendOf cfg pvLt05 x years = List.replicate (trendOf cfg pvLt05 x years).length 0 := by
  unfold trendOf
  rw [annualTrendOf_flag_false pvLt05 _ hflag, repeatEach_replicate_zero, List.take_replicate,
    List.length_replicate]

theorem zipWith_sub_replicate_zero (x : List ℚ) :
    List.zipWith (fun u v => u - v) x (List.replicate x.length 0) = x := by
  induction x with
  | nil => rfl
  | cons a as ih => simp [List.replicate_succ, ih]

set_option maxRecDepth 10000 in
/-- C3: the claim (and the step-3 docstring) says that with the
significance test disabled the fitted linear trend is always removed; in
the source the removal condition is regression.pvalue < 0.05 AND
trend_removal_with_significance_test, so with the flag disabled the
removed trend is identically zero for every series and every p-value and
the detrended output equals the input unchanged. The second conjunct
shows the divergence is observable: at x = [0,2,4,6] with window length 1
the regression slope is 2, so the trend slope*(t - mean t) the claim
prescribes is nonzero. -/
theorem claim_C3_flag_disabled_removes_nothing :
    (∀ (cfg : ISIMIPConfig) (pvLt05 : List ℚ → Bool) (x : List ℚ)
        (years : Option (List ℤ)) (d t : List ℚ),
      cfg.trendRemovalWithSignificanceTest = false →
      step3RemoveTrend cfg pvLt05 x years = some (d, t) →
      d = x ∧ ∀ v ∈ t, v = 0) ∧
    olsSlope [0, 1, 2, 3] [0, 2, 4, 6] = 2 := by
  constructor
  · intro cfg pv x years d t hflag hres
    unfold step3RemoveTrend npSub at hres
    dsimp only at hres
    by_cases hlen : x.length = (trendOf cfg pv x years).length
    · rw [if_pos hlen] at hres
      simp only [Option.map_some', Option.some.injEq, Prod.mk.injEq] at hres
      obtain ⟨hd, ht⟩ := hres
      have htz := trendOf_flag_false cfg pv x years hflag
      constructor
      · rw [← hd, htz, ← hlen, zipWith_sub_replicate_zero]
      · intro v hv
        rw [← ht, htz] at hv
        exact List.eq_of_mem_replicate hv
    · rw [if_neg hlen] at hres
      by_cases hb : (trendOf cfg pv x years).length = 1
      · rw [if_pos hb] at hres
        simp only [Option.map_some', Option.some.injEq, Prod.mk.injEq] at hres
        obtain ⟨hd, ht⟩ := hres
        have htz := trendOf_flag_false cfg pv x years hflag
        have hget : (trendOf cfg pv x years).getD 0 0 = 0 := by
          rw [htz, hb]
          rfl
        constructor
        · rw [← hd, hget]
          simp
        · intro v hv
          rw [← ht, htz] at hv
          exact List.eq_of_mem_replicate hv
      · rw [if_neg hb] at hres
        simp at hres
  · show olsSlope [0, 1, 2, 3] [0, 2, 4, 6] = 2
    unfold olsSlope mean
    simp only [List.map_cons, List.map_nil, List.zipWith_cons_cons, List.zipWith_nil_right,
      List.sum_cons, List.sum_nil, List.length_cons, List.length_nil]
    norm_num

/-- Configuration with the significance test disabled, window length 1. -/
def cfgSigOff : ISIMIPConfig :=
  { cfgMini with trendRemovalWithSignificanceTest := false, runningWindowLength := 1 }

theorem claim_C3_witness :
    ([0, 2, 4, 6] : List ℚ) = [0, 2, 4, 6] ∧ ∀ v ∈ ([0, 0, 0, 0] : List ℚ), v = 0 :=
  claim_C3_flag_disabled_removes_nothing.1 cfgSigOff (fun _ => true) [0, 2, 4, 6] none
    [0, 2, 4, 6] [0, 0, 0, 0] rfl
    (by
      obtain ⟨heq, hlen⟩ := step3RemoveTrend_chunked cfgSigOff (fun _ => true) [0, 2, 4, 6]
        (by norm_num [cfgSigOff, cfgMini])
      have htz := trendOf_flag_false cfgSigOff (fun _ => true) [0, 2, 4, 6] none rfl
      rw [htz, hlen] at heq
      rw [heq, zipWith_sub_replicate_zero ([0, 2, 4, 6] : List ℚ)]
      rfl)

theorem npAdd_of_length {a b : List ℚ} (h : a.length = b.length) :
    npAdd a b = some (List.zipWith (fun u v => u + v) a b) := by
  simp [npAdd, h]

theorem zipWith_sub_add (x t : List ℚ) (h : t.length = x.length) :
    List.zipWith (fun u v => u + v) (List.zipWith (fun u v => u - v) x t) t = x := by
  induction x generalizing t with
  | nil => simp
  | cons a as ih =>
    cases t with
    | nil => simp at h
    | cons b bs =>
      simp only [List.length_cons] at h
      simp only [List.zipWith_cons_cons]
      rw [ih bs (by omega)]
      have : a - b + b = a := by ring
      rw [this]

/-- C6: with detrending enabled and the cm_future trend significant, step 3
followed by step 7 reconstructs cm_future exactly (rational arithmetic). -/
theorem claim_C6_trend_roundtrip (cfg : ISIMIPConfig) (pvLt05 : List ℚ → Bool)
    (obsHist cmHist cmFuture : List ℚ)
    (hdet : cfg.detrending = true) (hw : 0 < cfg.runningWindowLength)
    (_hsig : pvLt05 (annualMeansOf cfg cmFuture none) = true) :
    (step3 cfg pvLt05 obsHist cmHist cmFuture none none none).bind
      (fun r => step7 cfg r.2.2.1 r.2.2.2) = some cmFuture := by
  obtain ⟨h1, _⟩ := step3RemoveTrend_chunked cfg pvLt05 obsHist hw
  obtain ⟨h2, _⟩ := step3RemoveTrend_chunked cfg pvLt05 cmHist hw
  obtain ⟨h3, ht3⟩ := step3RemoveTrend_chunked cfg pvLt05 cmFuture hw
  unfold step3
  simp only [hdet, if_true, h1, h2, h3, Option.bind_some]
  unfold step7
  simp only [hdet, if_true]
  have hzlen : (List.zipWith (fun u v => u - v) cmFuture (trendOf cfg pvLt05 cmFuture none)).length =
      (trendOf cfg pvLt05 cmFuture none).length := by
    rw [List.length_zipWith, ht3]
    omega
  show npAdd (List.zipWith (fun u v => u - v) cmFuture (trendOf cfg pvLt05 cmFuture none))
      (trendOf cfg pvLt05 cmFuture none) = some cmFuture
  rw [npAdd_of_length hzlen, zipWith_sub_add cmFuture _ ht3]

/-- Configuration with detrending enabled, for the C6 witness. -/
def cfgDetrend : ISIMIPConfig := { cfgMini with detrending := true }

theorem claim_C6_witness :
    (step3 cfgDetrend (fun _ => true) [1, 2] [3, 4] [5, 6] none none none).bind
      (fun r => step7 cfgDetrend r.2.2.1 r.2.2.2) = some [5, 6] :=
  claim_C6_trend_roundtrip cfgDetrend (fun _ => true) [1, 2] [3, 4] [5, 6] rfl
    (by norm_num [cfgDetrend, cfgMini]) rfl

/-- Configuration with window length 2, for claim C7. -/
def cfgW2 : ISIMIPConfig := { cfgMini with runningWindowLength := 2 }

/-- C7 counterexample: with year labels giving 3 samples per year but
window length 2, np.repeat(annual_trend, 2) has length 4 for a series of
length 6 (neither equal nor broadcastable), so x - trend raises in numpy
and no trend vector of the series' length is produced (the claim asserts
the trend always has the series' length). -/
theorem claim_C7_counterexample :
    step3RemoveTrend cfgW2 (fun _ => true) [0, 0, 0, 3, 3, 3] (some [0, 0, 0, 1, 1, 1]) =
      none := by
  have hk : numAnnualChunks cfgW2 [0, 0, 0, 3, 3, 3] (some [0, 0, 0, 1, 1, 1]) = 2 := by
    unfold numAnnualChunks annualMeansOf yearlyMean
    rw [List.length_map, (List.perm_insertionSort _ _).length_eq]
    have hd : ([0, 0, 0, 1, 1, 1] : List ℤ).dedup = [0, 1] := by decide
    rw [hd]
    rfl
  apply step3RemoveTrend_none
  · rw [hk]
    norm_num [cfgW2, cfgMini]
  · rw [hk]
    norm_num [cfgW2, cfgMini]

/-- C7 amended: the trend vector has length min(|x|, k*w), with k the
number of annual chunks and w the running window length. When k*w covers
the series (always the case in the label-free chunked path) the
subtraction succeeds and the trend has exactly the series' length. When
k*w < |x|, any returned trend vector has length k*w, not |x|: for
k*w = 1 numpy broadcasts the single-entry trend and the call succeeds
with a length-1 trend, and for any other k*w < |x| the subtraction
raises on the shape mismatch. -/
theorem claim_C7_amended (cfg : ISIMIPConfig) (pvLt05 : List ℚ → Bool)
    (x : List ℚ) (years : Option (List ℤ)) (hw : 0 < cfg.runningWindowLength) :
    (trendOf cfg pvLt05 x years).length =
      min x.length (numAnnualChunks cfg x years * cfg.runningWindowLength) ∧
    (x.length ≤ numAnnualChunks cfg x years * cfg.runningWindowLength →
      step3RemoveTrend cfg pvLt05 x years =
        some (List.zipWith (fun u v => u - v) x (trendOf cfg pvLt05 x years),
          trendOf cfg pvLt05 x years) ∧
      (trendOf cfg pvLt05 x years).length = x.length) ∧
    (numAnnualChunks cfg x years * cfg.runningWindowLength < x.length →
      ∀ d t, step3RemoveTrend cfg pvLt05 x years = some (d, t) → t.length ≠ x.length) ∧
    (numAnnualChunks cfg x years * cfg.runningWindowLength = 1 → 1 < x.length →
      step3RemoveTrend cfg pvLt05 x years =
        some (x.map (fun u => u - (trendOf cfg pvLt05 x years).getD 0 0),
          trendOf cfg pvLt05 x years)) ∧
    (numAnnualChunks cfg x years * cfg.runningWindowLength ≠ 1 →
      numAnnualChunks cfg x years * cfg.runningWindowLength < x.length →
      step3RemoveTrend cfg pvLt05 x years = none) ∧
    (years = none → x.length ≤ numAnnualChunks cfg x years * cfg.runningWindowLength) := by
  refine ⟨trendOf_length cfg pvLt05 x years,
    step3RemoveTrend_covered cfg pvLt05 x years, ?_,
    step3RemoveTrend_broadcast cfg pvLt05 x years,
    step3RemoveTrend_none cfg pvLt05 x years, ?_⟩
  · intro hlt d t hres
    have ht := step3RemoveTrend_trend_component cfg pvLt05 x years d t hres
    have hT := trendOf_length cfg pvLt05 x years
    rw [ht]
    omega
  · rintro rfl
    exact chunkedMean_length_ge hw x

theorem claim_C7_witness :
    ([5, 7] : List ℚ).length ≤
      numAnnualChunks cfgW2 [5, 7] none * cfgW2.runningWindowLength :=
  (claim_C7_amended cfgW2 (fun _ => true) [5, 7] none
    (by norm_num [cfgW2, cfgMini])).2.2.2.2.2 rfl

/-- Bounded/thresholded configuration of claim C4: lower bound 0, lower
threshold 1, upper threshold 9, upper bound 10. -/
def cfgC4 : ISIMIPConfig :=
  { cfgMini with
    lowerBound := QInf.finite 0
    lowerThreshold := QInf.finite 1
    upperBound := QInf.finite 10
    upperThreshold := QInf.finite 9 }

/-- C4: the claim says the upper-side randomization re-assigns exactly the
positions holding values >= the upper threshold and leaves all other
positions unchanged; the source (line 449) instead writes the upper-side
values into the positions of the LOWER-threshold mask. On
cm_future = [1/2, 5, 19/2] with lower draw 1/4 and upper draw 37/4, the
position-0 entry (1/2, below the upper threshold, randomized to 1/4 by the
lower side) ends up holding the upper-range draw 37/4, while position 2
(19/2 >= 9, the only entry beyond the upper threshold) keeps its value. -/
theorem claim_C4_upper_randomization_misassigned :
    step4 cfgC4 (fun _ => 1/4) (fun _ => 37/4) [1/2, 5, 19/2] = some [37/4, 5, 19/2] ∧
    ¬ ((1/2 : ℚ) ≥ 9) ∧ ((19/2 : ℚ) ≥ 9) := by
  refine ⟨?_, by norm_num, by norm_num⟩
  have hmaskL : maskBeyondLower cfgC4 [1/2, 5, 19/2] = [true, false, false] := by
    norm_num [maskBeyondLower, cfgC4, cfgMini, leQI]
  have hmaskU : maskBeyondUpper cfgC4 [1/4, 5, 19/2] = [false, false, true] := by
    norm_num [maskBeyondUpper, cfgC4, cfgMini, geQI]
  unfold step4
  rw [show (cfgC4.hasLowerBound && cfgC4.hasLowerThreshold) = true from rfl,
    show (cfgC4.hasUpperBound && cfgC4.hasUpperThreshold) = true from rfl]
  simp only [if_true, hmaskL]
  rw [show scatterWhere [true, false, false]
      (sortLike (sortQ ((List.range (countTrue [true, false, false])).map (fun _ => (1/4 : ℚ))))
        (filterByMask [true, false, false] [1/2, 5, 19/2]))
      [1/2, 5, 19/2] = [1/4, 5, 19/2] from rfl]
  simp only [hmaskU]
  rfl

theorem getD_mem_self {α : Type} {l : List α} {i : ℕ} (h : i < l.length) (d : α) :
    l.getD i d ∈ l := by
  rw [getD_eq_get h]
  exact List.get_mem _ _ _

theorem zipWith_getD {α β γ : Type} (f : α → β → γ) {a : List α} {b : List β} {i : ℕ}
    (ha : i < a.length) (hb : i < b.length) (da : α) (db : β) (dc : γ) :
    (List.zipWith f a b).getD i dc = f (a.getD i da) (b.getD i db) := by
  have hz : i < (List.zipWith f a b).length := by
    rw [List.length_zipWith]
    omega
  rw [getD_eq_get hz, getD_eq_get ha, getD_eq_get hb]
  simp [List.getElem_zipWith]

theorem maskFirst_length (n a : ℕ) : (maskFirst n a).length = n := by
  simp [maskFirst]

theorem maskLast_length (n a : ℕ) : (maskLast n a).length = n := by
  simp [maskLast]

theorem maskFirst_getD {n i : ℕ} (h : i < n) (a : ℕ) :
    (maskFirst n a).getD i false = decide (i < a) := by
  unfold maskFirst
  rw [map_getD _ (by simpa using h) 0 false, range_getD h]

theorem maskLast_getD {n i : ℕ} (h : i < n) (a : ℕ) :
    (maskLast n a).getD i false = decide (n - a ≤ i) := by
  unfold maskLast
  rw [map_getD _ (by simpa using h) 0 false, range_getD h]

theorem getD_replicate {α : Type} {n i : ℕ} (h : i < n) (v d : α) :
    (List.replicate n v).getD i d = v := by
  rw [getD_eq_get (by simpa using h)]
  simp

theorem maskFirst_zero (n : ℕ) : maskFirst n 0 = List.replicate n false := by
  unfold maskFirst
  have h : ∀ i ∈ List.range n, decide (i < 0) = false := by
    intro i _
    simp
  rw [List.map_congr_left h, List.map_const']
  simp

theorem maskLast_zero (n : ℕ) : maskLast n 0 = List.replicate n false := by
  unfold maskLast
  have h : ∀ i ∈ List.range n, decide (n - 0 ≤ i) = false := by
    intro i hi
    rw [List.mem_range] at hi
    simp
    omega
  rw [List.map_congr_left h, List.map_const']
  simp

theorem countTrue_append (a b : List Bool) :
    countTrue (a ++ b) = countTrue a + countTrue b := by
  induction a with
  | nil => simp [countTrue]
  | cons x xs ih =>
    rw [List.cons_append, countTrue, countTrue, ih]
    omega

theorem countTrue_take_succ {l : List Bool} {i : ℕ} (h : i < l.length) :
    countTrue (l.take (i + 1)) =
      countTrue (l.take i) + (if l.getD i false then 1 else 0) := by
  have htake : l.take (i + 1) = l.take i ++ [l.get ⟨i, h⟩] := by
    rw [List.take_succ]
    simp [List.getElem?_eq_getElem, h]
  rw [htake, countTrue_append, getD_eq_get h]
  simp only [countTrue]
  omega

theorem setWhere_length (mask : List Bool) (v : ℚ) (x : List ℚ) :
    (setWhere mask v x).length = min mask.length x.length := by
  simp [setWhere]

theorem setWhere_cons (m : Bool) (ms : List Bool) (v a : ℚ) (as : List ℚ) :
    setWhere (m :: ms) v (a :: as) = (if m then v else a) :: setWhere ms v as := rfl

theorem setWhere_getD {mask : List Bool} {x : List ℚ} (v : ℚ) {i : ℕ}
    (hm : mask.length = x.length) (hi : i < x.length) (d : ℚ) :
    (setWhere mask v x).getD i d = if mask.getD i false then v else x.getD i d := by
  unfold setWhere
  rw [zipWith_getD _ (by omega) hi false d d]

theorem scatterWhere_length : ∀ (mask : List Bool) (vals x : List ℚ),
    mask.length = x.length → (scatterWhere mask vals x).length = x.length := by
  intro mask
  induction mask with
  | nil =>
    intro vals x h
    have : x = [] := List.length_eq_zero.1 (by simpa using h.symm)
    subst this
    cases vals <;> rfl
  | cons m ms ih =>
    intro vals x h
    cases x with
    | nil => simp at h
    | cons a as =>
      simp only [List.length_cons] at h
      cases m with
      | true =>
        cases vals with
        | nil => simp [scatterWhere, ih [] as (by omega)]
        | cons v vs => simp [scatterWhere, ih vs as (by omega)]
      | false => simp [scatterWhere, ih vals as (by omega)]

theorem countTrue_le_length : ∀ l : List Bool, countTrue l ≤ l.length := by
  intro l
  induction l with
  | nil => simp [countTrue]
  | cons b bs ih =>
    simp only [countTrue, List.length_cons]
    split <;> omega

theorem scatterWhere_getD (d : ℚ) : ∀ (mask : List Bool) (vals x : List ℚ) (i : ℕ),
    mask.length = x.length → countTrue mask ≤ vals.length → i < x.length →
    (scatterWhere mask vals x).getD i d =
      if mask.getD i false then vals.getD (countTrue (mask.take i)) d else x.getD i d := by
  intro mask
  induction mask with
  | nil =>
    intro vals x i h hc hi
    simp only [List.length_nil] at h
    omega
  | cons m ms ih =>
    intro vals x i h hc hi
    cases x with
    | nil => simp at hi
    | cons a as =>
      simp only [List.length_cons] at h hi
      cases m with
      | true =>
        cases vals with
        | nil =>
          exfalso
          simp [countTrue] at hc
        | cons v vs =>
          cases i with
          | zero => simp [scatterWhere, countTrue]
          | succ i =>
            have hrec := ih vs as i (by omega)
              (by simp [countTrue] at hc; omega) (by omega)
            simp only [scatterWhere, List.getD_cons_succ, List.take_succ_cons, countTrue,
              reduceIte]
            exact hrec
      | false =>
        cases i with
        | zero => simp [scatterWhere, countTrue]
        | succ i =>
          have hrec := ih vals as i (by omega)
            (by simp [countTrue] at hc; omega) (by omega)
          simp only [scatterWhere, List.getD_cons_succ, List.take_succ_cons, countTrue,
            reduceIte, Nat.add_zero]
          exact hrec

theorem filterByMask_sublist {α : Type} : ∀ (mask : List Bool) (x : List α),
    List.Sublist (filterByMask mask x) x := by
  intro mask
  induction mask with
  | nil =>
    intro x
    simp [filterByMask]
  | cons m ms ih =>
    intro x
    cases x with
    | nil => simp [filterByMask]
    | cons a as =>
      cases m with
      | true => exact List.Sublist.cons₂ a (ih as)
      | false => exact List.Sublist.cons a (ih as)

theorem filterByMask_length {α : Type} : ∀ (mask : List Bool) (x : List α),
    mask.length = x.length → (filterByMask mask x).length = countTrue mask := by
  intro mask
  induction mask with
  | nil =>
    intro x h
    simp [filterByMask, countTrue]
  | cons m ms ih =>
    intro x h
    cases x with
    | nil => simp at h
    | cons a as =>
      simp only [List.length_cons] at h
      cases m with
      | true => simp [filterByMask, countTrue, ih as (by omega), Nat.add_comm]
      | false => simp [filterByMask, countTrue, ih as (by omega)]

theorem filterByMask_setWhere_noop :
    ∀ (mL mU : List Bool) (x : List ℚ) (lv uv : ℚ),
    mL.length = x.length → mU.length = x.length →
    filterByMask (List.zipWith (fun a b => !a && !b) mL mU)
        (setWhere mU uv (setWhere mL lv x)) =
      filterByMask (List.zipWith (fun a b => !a && !b) mL mU) x := by
  intro mL
  induction mL with
  | nil =>
    intro mU x lv uv hL hU
    simp [filterByMask]
  | cons a as ih =>
    intro mU x lv uv hL hU
    cases x with
    | nil => simp at hL
    | cons c cs =>
      cases mU with
      | nil => simp at hU
      | cons b bs =>
        simp only [List.length_cons] at hL hU
        have hrec := ih bs cs lv uv (by omega) (by omega)
        cases a with
        | true => exact hrec
        | false =>
          cases b with
          | true => exact hrec
          | false => exact congrArg (fun t => c :: t) hrec

/-- Sorted copy of cm_future as step 6 builds it (cm_future[argsort]). -/
def s6cfS (cf : List ℚ) : List ℚ := gather cf (argsort cf 0) 0

/-- Effective number of sorted entries set to the lower bound in step 6
(0 when no lower threshold is configured). -/
def s6nrL (cfg : ISIMIPConfig) (oh ch cf : List ℚ) : ℕ :=
  if cfg.hasLowerThreshold then
    nrEntriesToBound (maskBeyondLower cfg (sortQ oh)) (maskBeyondLower cfg (sortQ ch))
      (maskBeyondLower cfg (s6cfS cf))
  else 0

/-- Effective number of sorted entries set to the upper bound in step 6
(0 when no upper threshold is configured). -/
def s6nrU (cfg : ISIMIPConfig) (oh ch cf : List ℚ) : ℕ :=
  if cfg.hasUpperThreshold then
    nrEntriesToBound (maskBeyondUpper cfg (sortQ oh)) (maskBeyondUpper cfg (sortQ ch))
      (maskBeyondUpper cfg (s6cfS cf))
  else 0

/-- Mask of the sorted entries set to neither bound in step 6. -/
def s6maskNot (cfg : ISIMIPConfig) (oh ch cf : List ℚ) : List Bool :=
  List.zipWith (fun a b => !a && !b) (maskFirst cf.length (s6nrL cfg oh ch cf))
    (maskLast cf.length (s6nrU cfg oh ch cf))

/-- Sorted cm_future after the bound entries were overwritten in step 6. -/
def s6afterB (cfg : ISIMIPConfig) (oh ch cf : List ℚ) : List ℚ :=
  setWhere (maskLast cf.length (s6nrU cfg oh ch cf)) cfg.upperBound.toQ
    (setWhere (maskFirst cf.length (s6nrL cfg oh ch cf)) cfg.lowerBound.toQ (s6cfS cf))

/-- Quantile-mapped values of the entries set to neither bound in step 6. -/
def s6mapped (cfg : ISIMIPConfig) (D : Dist) (sp : SpecialFns) (oh of ch cf : List ℚ) :
    List ℚ :=
  adjustBetween cfg D sp (valuesBetween cfg (sortQ oh)) (valuesBetween cfg (sortQ of))
    (valuesBetween cfg (sortQ ch))
    (filterByMask (s6maskNot cfg oh ch cf) (s6afterB cfg oh ch cf))

theorem s6cfS_length (cf : List ℚ) : (s6cfS cf).length = cf.length := by
  unfold s6cfS
  rw [gather_length, argsort_length]

/-- The sorted-order part of step 6 in the closed scatter form. -/
theorem step6Sorted_eq (cfg : ISIMIPConfig) (D : Dist) (sp : SpecialFns)
    (oh of ch cf : List ℚ) :
    step6Sorted cfg D sp oh of ch cf =
      scatterWhere (s6maskNot cfg oh ch cf) (s6mapped cfg D sp oh of ch cf)
        (s6afterB cfg oh ch cf) := by
  have hmL : (if cfg.hasLowerThreshold then
        maskEntriesLower cfg (sortQ oh) (sortQ ch) (gather cf (argsort cf 0) 0)
      else List.replicate (gather cf (argsort cf 0) 0).length false) =
      maskFirst cf.length (s6nrL cfg oh ch cf) := by
    unfold maskEntriesLower s6nrL
    cases h : cfg.hasLowerThreshold with
    | false =>
      have : (gather cf (argsort cf 0) 0).length = cf.length := s6cfS_length cf
      simp [h, this, maskFirst_zero]
    | true =>
      have : (gather cf (argsort cf 0) 0).length = cf.length := s6cfS_length cf
      simp only [h, if_true]
      rw [this]
      rfl
  have hmU : (if cfg.hasUpperThreshold then
        maskEntriesUpper cfg (sortQ oh) (sortQ ch) (gather cf (argsort cf 0) 0)
      else List.replicate (gather cf (argsort cf 0) 0).length false) =
      maskLast cf.length (s6nrU cfg oh ch cf) := by
    unfold maskEntriesUpper s6nrU
    cases h : cfg.hasUpperThreshold with
    | false =>
      have : (gather cf (argsort cf 0) 0).length = cf.length := s6cfS_length cf
      simp [h, this, maskLast_zero]
    | true =>
      have : (gather cf (argsort cf 0) 0).length = cf.length := s6cfS_length cf
      simp only [h, if_true]
      rw [this]
      rfl
  unfold step6Sorted
  dsimp only
  rw [hmL, hmU]
  rfl

theorem s6maskNot_length (cfg : ISIMIPConfig) (oh ch cf : List ℚ) :
    (s6maskNot cfg oh ch cf).length = cf.length := by
  unfold s6maskNot
  rw [List.length_zipWith, maskFirst_length, maskLast_length]
  omega

theorem s6afterB_length (cfg : ISIMIPConfig) (oh ch cf : List ℚ) :
    (s6afterB cfg oh ch cf).length = cf.length := by
  unfold s6afterB
  rw [setWhere_length, setWhere_length, maskLast_length, maskFirst_length, s6cfS_length]
  omega

theorem s6maskNot_getD (cfg : ISIMIPConfig) (oh ch cf : List ℚ) {i : ℕ}
    (hi : i < cf.length) :
    (s6maskNot cfg oh ch cf).getD i false =
      (!decide (i < s6nrL cfg oh ch cf) &&
        !decide (cf.length - s6nrU cfg oh ch cf ≤ i)) := by
  unfold s6maskNot
  rw [zipWith_getD _ (by rw [maskFirst_length]; exact hi) (by rw [maskLast_length]; exact hi)
    false false false, maskFirst_getD hi, maskLast_getD hi]

theorem countTrue_maskNot_take (n a b : ℕ) : ∀ i, i ≤ n →
    countTrue ((List.zipWith (fun p q => !p && !q) (maskFirst n a) (maskLast n b)).take i) =
      min i (n - b) - min i a := by
  intro i
  induction i with
  | zero => simp [countTrue]
  | succ i ih =>
    intro hsn
    have hi : i < n := by omega
    have hlen : i < (List.zipWith (fun p q : Bool => !p && !q)
        (maskFirst n a) (maskLast n b)).length := by
      rw [List.length_zipWith, maskFirst_length, maskLast_length]
      omega
    rw [countTrue_take_succ hlen, ih (by omega),
      zipWith_getD _ (by rw [maskFirst_length]; exact hi) (by rw [maskLast_length]; exact hi)
        false false false, maskFirst_getD hi, maskLast_getD hi]
    by_cases h1 : i < a <;> by_cases h2 : n - b ≤ i <;> simp [h1, h2] <;> omega

theorem countTrue_s6maskNot (cfg : ISIMIPConfig) (oh ch cf : List ℚ) :
    countTrue (s6maskNot cfg oh ch cf) =
      min cf.length (cf.length - s6nrU cfg oh ch cf) -
        min cf.length (s6nrL cfg oh ch cf) := by
  unfold s6maskNot
  have hlen : (List.zipWith (fun p q : Bool => !p && !q)
      (maskFirst cf.length (s6nrL cfg oh ch cf))
      (maskLast cf.length (s6nrU cfg oh ch cf))).length = cf.length := by
    rw [List.length_zipWith, maskFirst_length, maskLast_length]
    omega
  have h := countTrue_maskNot_take cf.length (s6nrL cfg oh ch cf) (s6nrU cfg oh ch cf)
    cf.length le_rfl
  rw [List.take_of_length_le (le_of_eq hlen)] at h
  exact h

theorem interpSortedCdfVals_length (vals : List ℚ) (n : ℕ) :
    (interpSortedCdfVals vals n).length = n := by
  unfold interpSortedCdfVals
  rw [List.length_map, List.length_range]

theorem thresholdCdfVals_length (vals : List ℚ) :
    (thresholdCdfVals vals).length = vals.length := by
  simp [thresholdCdfVals]

theorem adjustBetween_length (cfg : ISIMIPConfig) (D : Dist) (sp : SpecialFns)
    (oh of ch cf : List ℚ) :
    (adjustBetween cfg D sp oh of ch cf).length = cf.length := by
  unfold adjustBetween
  split
  · rw [List.length_map, thresholdCdfVals_length, List.length_map]
  · simp only [List.length_map, List.length_zipWith, interpSortedCdfVals_length,
      thresholdCdfVals_length]
    omega

theorem s6mapped_length (cfg : ISIMIPConfig) (D : Dist) (sp : SpecialFns)
    (oh of ch cf : List ℚ) :
    (s6mapped cfg D sp oh of ch cf).length = countTrue (s6maskNot cfg oh ch cf) := by
  unfold s6mapped
  rw [adjustBetween_length, filterByMask_length _ _
    (by rw [s6maskNot_length, s6afterB_length])]

theorem s6middle_eq (cfg : ISIMIPConfig) (oh ch cf : List ℚ) :
    filterByMask (s6maskNot cfg oh ch cf) (s6afterB cfg oh ch cf) =
      filterByMask (s6maskNot cfg oh ch cf) (s6cfS cf) := by
  unfold s6maskNot s6afterB
  exact filterByMask_setWhere_noop _ _ _ _ _
    (by rw [maskFirst_length, s6cfS_length])
    (by rw [maskLast_length, s6cfS_length])

theorem sorted_map_mono {l : List ℚ} {f : ℚ → ℚ} (hs : List.Sorted (· ≤ ·) l)
    (hf : ∀ a b : ℚ, a ≤ b → f a ≤ f b) : List.Sorted (· ≤ ·) (l.map f) :=
  List.Pairwise.map f hf hs

theorem thresholdCdfVals_sorted {l : List ℚ} (hs : List.Sorted (· ≤ ·) l) :
    List.Sorted (· ≤ ·) (thresholdCdfVals l) := by
  unfold thresholdCdfVals
  exact sorted_map_mono hs (fun a b h => max_le_max le_rfl (min_le_min le_rfl h))

theorem s6middle_sorted (cfg : ISIMIPConfig) (oh ch cf : List ℚ) :
    List.Sorted (· ≤ ·) (filterByMask (s6maskNot cfg oh ch cf) (s6afterB cfg oh ch cf)) := by
  rw [s6middle_eq]
  exact List.Pairwise.sublist (filterByMask_sublist _ _) (sorted_gather_argsort cf 0)

theorem adjustBetween_sorted_noAdj (cfg : ISIMIPConfig) (D : Dist) (sp : SpecialFns)
    (oh of ch cf : List ℚ) (hAdj : cfg.eventLikelihoodAdjustment = false)
    (hcdf : ∀ (ps : List ℚ) (a b : ℚ), a ≤ b → D.cdf ps a ≤ D.cdf ps b)
    (hppf : ∀ (ps : List ℚ) (a b : ℚ), a ≤ b → D.ppf ps a ≤ D.ppf ps b)
    (hcf : List.Sorted (· ≤ ·) cf) :
    List.Sorted (· ≤ ·) (adjustBetween cfg D sp oh of ch cf) := by
  unfold adjustBetween
  simp only [hAdj, Bool.not_false, if_true]
  exact sorted_map_mono (thresholdCdfVals_sorted (sorted_map_mono hcf (hcdf _))) (hppf _)

theorem adjustBetween_mem_noAdj (cfg : ISIMIPConfig) (D : Dist) (sp : SpecialFns)
    (oh of ch cf : List ℚ) (hAdj : cfg.eventLikelihoodAdjustment = false) :
    ∀ v ∈ adjustBetween cfg D sp oh of ch cf, ∃ q, v = D.ppf (D.fit of) q := by
  unfold adjustBetween
  simp only [hAdj, Bool.not_false, if_true]
  intro v hv
  rcases List.mem_map.1 hv with ⟨q, _, rfl⟩
  exact ⟨q, rfl⟩

theorem s6nrL_pos_hasL {cfg : ISIMIPConfig} {oh ch cf : List ℚ}
    (h : 0 < s6nrL cfg oh ch cf) : cfg.hasLowerThreshold = true := by
  unfold s6nrL at h
  by_cases hc : cfg.hasLowerThreshold = true
  · exact hc
  · rw [if_neg hc] at h
    omega

theorem s6nrU_pos_hasU {cfg : ISIMIPConfig} {oh ch cf : List ℚ}
    (h : 0 < s6nrU cfg oh ch cf) : cfg.hasUpperThreshold = true := by
  unfold s6nrU at h
  by_cases hc : cfg.hasUpperThreshold = true
  · exact hc
  · rw [if_neg hc] at h
    omega

theorem step6Sorted_length (cfg : ISIMIPConfig) (D : Dist) (sp : SpecialFns)
    (oh of ch cf : List ℚ) :
    (step6Sorted cfg D sp oh of ch cf).length = cf.length := by
  rw [step6Sorted_eq,
    scatterWhere_length _ _ _ (by rw [s6maskNot_length, s6afterB_length]), s6afterB_length]

/-- Closed form of the sorted step-6 output at each index: the last nrU
entries hold the upper bound, the first nrL of the rest hold the lower
bound, and the middle holds the quantile-mapped values in order. -/
theorem step6Sorted_resultGetD (cfg : ISIMIPConfig) (D : Dist) (sp : SpecialFns)
    (oh of ch cf : List ℚ) {i : ℕ} (hi : i < cf.length) :
    (step6Sorted cfg D sp oh of ch cf).getD i 0 =
      if cf.length - s6nrU cfg oh ch cf ≤ i then cfg.upperBound.toQ
      else if i < s6nrL cfg oh ch cf then cfg.lowerBound.toQ
      else (s6mapped cfg D sp oh of ch cf).getD (i - s6nrL cfg oh ch cf) 0 := by
  rw [step6Sorted_eq]
  have hsc := scatterWhere_getD 0 (s6maskNot cfg oh ch cf) (s6mapped cfg D sp oh of ch cf)
    (s6afterB cfg oh ch cf) i (by rw [s6maskNot_length, s6afterB_length])
    (by rw [s6mapped_length]) (by rw [s6afterB_length]; exact hi)
  rw [hsc, s6maskNot_getD cfg oh ch cf hi]
  have hsw1 : (setWhere (maskFirst cf.length (s6nrL cfg oh ch cf)) cfg.lowerBound.toQ
      (s6cfS cf)).getD i 0 =
      if decide (i < s6nrL cfg oh ch cf) then cfg.lowerBound.toQ
      else (s6cfS cf).getD i 0 := by
    rw [setWhere_getD _ (by rw [maskFirst_length, s6cfS_length])
      (by rw [s6cfS_length]; exact hi) 0, maskFirst_getD hi]
  have hsw2 : (s6afterB cfg oh ch cf).getD i 0 =
      if decide (cf.length - s6nrU cfg oh ch cf ≤ i) then cfg.upperBound.toQ
      else if decide (i < s6nrL cfg oh ch cf) then cfg.lowerBound.toQ
      else (s6cfS cf).getD i 0 := by
    unfold s6afterB
    rw [setWhere_getD _
      (by rw [maskLast_length, setWhere_length, maskFirst_length, s6cfS_length]; omega)
      (by rw [setWhere_length, maskFirst_length, s6cfS_length]; omega) 0,
      maskLast_getD hi, hsw1]
  by_cases h2 : cf.length - s6nrU cfg oh ch cf ≤ i
  · have hmask : (!decide (i < s6nrL cfg oh ch cf) &&
        !decide (cf.length - s6nrU cfg oh ch cf ≤ i)) = false := by simp [h2]
    rw [if_pos h2, hmask, if_neg Bool.false_ne_true, hsw2, if_pos (decide_eq_true h2)]
  · by_cases h1 : i < s6nrL cfg oh ch cf
    · have hmask : (!decide (i < s6nrL cfg oh ch cf) &&
          !decide (cf.length - s6nrU cfg oh ch cf ≤ i)) = false := by simp [h1]
      rw [if_neg h2, if_pos h1, hmask, if_neg Bool.false_ne_true, hsw2,
        if_neg (by simp [h2]), if_pos (decide_eq_true h1)]
    · have hmask : (!decide (i < s6nrL cfg oh ch cf) &&
          !decide (cf.length - s6nrU cfg oh ch cf ≤ i)) = true := by simp [h1, h2]
      have hcnt : countTrue ((s6maskNot cfg oh ch cf).take i) = i - s6nrL cfg oh ch cf := by
        unfold s6maskNot
        rw [countTrue_maskNot_take cf.length _ _ i (by omega)]
        omega
      rw [if_neg h2, if_neg h1, hmask, if_pos rfl, hcnt]

/-- Under monotone cdf/ppf, no event-likelihood adjustment and ppf values
within the configured bounds on the thresholded sides, the sorted step-6
output is non-decreasing. -/
theorem step6Sorted_sorted (cfg : ISIMIPConfig) (D : Dist) (sp : SpecialFns)
    (oh of ch cf : List ℚ)
    (hAdj : cfg.eventLikelihoodAdjustment = false)
    (hcdf : ∀ (ps : List ℚ) (a b : ℚ), a ≤ b → D.cdf ps a ≤ D.cdf ps b)
    (hppf : ∀ (ps : List ℚ) (a b : ℚ), a ≤ b → D.ppf ps a ≤ D.ppf ps b)
    (hlb : cfg.hasLowerThreshold = true → ∀ (ps : List ℚ) (p : ℚ),
      cfg.lowerBound.toQ ≤ D.ppf ps p)
    (hub : cfg.hasUpperThreshold = true → ∀ (ps : List ℚ) (p : ℚ),
      D.ppf ps p ≤ cfg.upperBound.toQ)
    (hlu : cfg.hasLowerThreshold = true → cfg.hasUpperThreshold = true →
      cfg.lowerBound.toQ ≤ cfg.upperBound.toQ) :
    List.Sorted (· ≤ ·) (step6Sorted cfg D sp oh of ch cf) := by
  have hlen : (step6Sorted cfg D sp oh of ch cf).length = cf.length :=
    step6Sorted_length cfg D sp oh of ch cf
  have hmsorted : List.Sorted (· ≤ ·) (s6mapped cfg D sp oh of ch cf) := by
    unfold s6mapped
    exact adjustBetween_sorted_noAdj _ _ _ _ _ _ _ hAdj hcdf hppf (s6middle_sorted cfg oh ch cf)
  have hmlen : (s6mapped cfg D sp oh of ch cf).length =
      min cf.length (cf.length - s6nrU cfg oh ch cf) - min cf.length (s6nrL cfg oh ch cf) := by
    rw [s6mapped_length, countTrue_s6maskNot]
  have hlbv : 0 < s6nrL cfg oh ch cf → ∀ k, k < (s6mapped cfg D sp oh of ch cf).length →
      cfg.lowerBound.toQ ≤ (s6mapped cfg D sp oh of ch cf).getD k 0 := by
    intro hpos k hk
    have hmem := getD_mem_self hk (0 : ℚ)
    unfold s6mapped at hmem
    obtain ⟨q, hq⟩ := adjustBetween_mem_noAdj _ _ _ _ _ _ _ hAdj _ hmem
    have : (s6mapped cfg D sp oh of ch cf).getD k 0 = D.ppf (D.fit (valuesBetween cfg (sortQ of))) q := hq
    rw [this]
    exact hlb (s6nrL_pos_hasL hpos) _ _
  have hubv : 0 < s6nrU cfg oh ch cf → ∀ k, k < (s6mapped cfg D sp oh of ch cf).length →
      (s6mapped cfg D sp oh of ch cf).getD k 0 ≤ cfg.upperBound.toQ := by
    intro hpos k hk
    have hmem := getD_mem_self hk (0 : ℚ)
    unfold s6mapped at hmem
    obtain ⟨q, hq⟩ := adjustBetween_mem_noAdj _ _ _ _ _ _ _ hAdj _ hmem
    have : (s6mapped cfg D sp oh of ch cf).getD k 0 = D.ppf (D.fit (valuesBetween cfg (sortQ of))) q := hq
    rw [this]
    exact hub (s6nrU_pos_hasU hpos) _ _
  show List.Pairwise (· ≤ ·) (step6Sorted cfg D sp oh of ch cf)
  refine List.pairwise_iff_get.2 ?_
  intro u v huv
  have hu : (u : ℕ) < cf.length := by rw [← hlen]; exact u.isLt
  have hv : (v : ℕ) < cf.length := by rw [← hlen]; exact v.isLt
  rw [← getD_eq_get u.isLt 0, ← getD_eq_get v.isLt 0,
    step6Sorted_resultGetD cfg D sp oh of ch cf hu,
    step6Sorted_resultGetD cfg D sp oh of ch cf hv]
  by_cases hu2 : cf.length - s6nrU cfg oh ch cf ≤ (u : ℕ)
  · have hv2 : cf.length - s6nrU cfg oh ch cf ≤ (v : ℕ) := by omega
    simp [hu2, hv2]
  · by_cases hu1 : (u : ℕ) < s6nrL cfg oh ch cf
    · have haPos : 0 < s6nrL cfg oh ch cf := by omega
      by_cases hv2 : cf.length - s6nrU cfg oh ch cf ≤ (v : ℕ)
      · have hbPos : 0 < s6nrU cfg oh ch cf := by omega
        simp only [hu1, hu2, hv2, if_true, if_false]
        exact hlu (s6nrL_pos_hasL haPos) (s6nrU_pos_hasU hbPos)
      · by_cases hv1 : (v : ℕ) < s6nrL cfg oh ch cf
        · simp [hu1, hu2, hv1, hv2]
        · simp only [hu1, hu2, hv1, hv2, if_true, if_false]
          refine hlbv haPos _ ?_
          rw [hmlen]
          omega
    · -- u in the middle
      have hv2f : ¬ ((v : ℕ) < s6nrL cfg oh ch cf) := by omega
      by_cases hv2 : cf.length - s6nrU cfg oh ch cf ≤ (v : ℕ)
      · have hbPos : 0 < s6nrU cfg oh ch cf := by omega
        simp only [hu1, hu2, hv2, if_true, if_false]
        refine hubv hbPos _ ?_
        rw [hmlen]
        omega
      · simp only [hu1, hu2, hv2f, hv2, if_false]
        refine sorted_getD_mono hmsorted (by omega) ?_ 0
        rw [hmlen]
        omega

theorem argsort_getD_inj {α : Type} [LinearOrder α] {v : List α} {d : α} {a b : ℕ}
    (ha : a < v.length) (hb : b < v.length)
    (h : (argsort v d).getD a 0 = (argsort v d).getD b 0) : a = b := by
  have hnd : (argsort v d).Nodup := argsort_nodup v d
  have ha' : a < (argsort v d).length := by rw [argsort_length]; exact ha
  have hb' : b < (argsort v d).length := by rw [argsort_length]; exact hb
  rw [getD_eq_get ha' 0, getD_eq_get hb' 0] at h
  have := List.Nodup.get_inj_iff hnd |>.1 h
  exact congrArg Fin.val this

/-- C1 (amended): the step-6 output has cm_future's length and is exactly
the sorted-order result placed back through the saved argsort permutation;
the rank order of cm_future is preserved under the amendment's additional
assumptions (monotone cdf, event-likelihood adjustment disabled, and ppf
values lying within the configured bounds on the thresholded sides). -/
theorem claim_C1_amended (cfg : ISIMIPConfig) (D : Dist) (sp : SpecialFns)
    (obsHist obsFuture cmHist cmFuture : List ℚ)
    (hAdj : cfg.eventLikelihoodAdjustment = false)
    (hcdf : ∀ (ps : List ℚ) (a b : ℚ), a ≤ b → D.cdf ps a ≤ D.cdf ps b)
    (hppf : ∀ (ps : List ℚ) (a b : ℚ), a ≤ b → D.ppf ps a ≤ D.ppf ps b)
    (hlb : cfg.hasLowerThreshold = true → ∀ (ps : List ℚ) (p : ℚ),
      cfg.lowerBound.toQ ≤ D.ppf ps p)
    (hub : cfg.hasUpperThreshold = true → ∀ (ps : List ℚ) (p : ℚ),
      D.ppf ps p ≤ cfg.upperBound.toQ)
    (hlu : cfg.hasLowerThreshold = true → cfg.hasUpperThreshold = true →
      cfg.lowerBound.toQ ≤ cfg.upperBound.toQ) :
    (step6 cfg D sp obsHist obsFuture cmHist cmFuture).length = cmFuture.length ∧
    (∀ k, k < cmFuture.length →
      (step6 cfg D sp obsHist obsFuture cmHist cmFuture).getD
          ((argsort cmFuture 0).getD k 0) 0 =
        (step6Sorted cfg D sp obsHist obsFuture cmHist cmFuture).getD k 0) ∧
    (∀ i j, i < cmFuture.length → j < cmFuture.length →
      cmFuture.getD i 0 < cmFuture.getD j 0 →
      (step6 cfg D sp obsHist obsFuture cmHist cmFuture).getD i 0 ≤
        (step6 cfg D sp obsHist obsFuture cmHist cmFuture).getD j 0) := by
  have hσperm : List.Perm (argsort cmFuture 0) (List.range cmFuture.length) :=
    argsort_perm cmFuture 0
  have hσlen : (argsort cmFuture 0).length = cmFuture.length := argsort_length cmFuture 0
  have hinvlen : (argsort (argsort cmFuture 0) 0).length = cmFuture.length := by
    rw [argsort_length, hσlen]
  have hfinal_len : (step6Sorted cfg D sp obsHist obsFuture cmHist cmFuture).length =
      cmFuture.length := step6Sorted_length cfg D sp obsHist obsFuture cmHist cmFuture
  refine ⟨?_, ?_, ?_⟩
  · unfold step6
    rw [gather_length, argsort_length, argsort_length]
  · intro k hk
    unfold step6
    have hklt : k < (argsort cmFuture 0).length := by rw [hσlen]; exact hk
    have hσk_lt : (argsort cmFuture 0).getD k 0 < cmFuture.length :=
      mem_argsort_lt (getD_mem_self hklt 0)
    rw [gather_getD _ (by rw [hinvlen]; exact hσk_lt) 0]
    have h1 := argsort_inv_getD hσperm hσk_lt
    have h2 := argsort_inv_lt hσperm hσk_lt
    have hinj : (argsort (argsort cmFuture 0) 0).getD ((argsort cmFuture 0).getD k 0) 0 = k :=
      argsort_getD_inj h2 hk h1
    rw [hinj]
  · intro i j hi hj hij
    unfold step6
    rw [gather_getD _ (by rw [hinvlen]; exact hi) 0,
      gather_getD _ (by rw [hinvlen]; exact hj) 0]
    have ha : (argsort (argsort cmFuture 0) 0).getD i 0 < cmFuture.length :=
      argsort_inv_lt hσperm hi
    have hb : (argsort (argsort cmFuture 0) 0).getD j 0 < cmFuture.length :=
      argsort_inv_lt hσperm hj
    have hσa : (argsort cmFuture 0).getD ((argsort (argsort cmFuture 0) 0).getD i 0) 0 = i :=
      argsort_inv_getD hσperm hi
    have hσb : (argsort cmFuture 0).getD ((argsort (argsort cmFuture 0) 0).getD j 0) 0 = j :=
      argsort_inv_getD hσperm hj
    have hab : (argsort (argsort cmFuture 0) 0).getD i 0 <
        (argsort (argsort cmFuture 0) 0).getD j 0 := by
      by_contra hle
      push_neg at hle
      have hsort := sorted_gather_argsort cmFuture 0
      have hmono := sorted_getD_mono hsort hle (by rw [gather_length, hσlen]; exact ha) 0
      rw [gather_getD _ (by rw [hσlen]; exact hb) 0,
        gather_getD _ (by rw [hσlen]; exact ha) 0, hσa, hσb] at hmono
      exact absurd hij (not_lt.2 hmono)
    have hsorted := step6Sorted_sorted cfg D sp obsHist obsFuture cmHist cmFuture
      hAdj hcdf hppf hlb hub hlu
    exact sorted_getD_mono hsorted (le_of_lt hab) (by rw [hfinal_len]; exact hb) 0

theorem claim_C1_witness :
    (step6 cfgMini distId spZero [1, 2] [1, 2] [1, 2] [2, 1]).getD 1 0 ≤
      (step6 cfgMini distId spZero [1, 2] [1, 2] [1, 2] [2, 1]).getD 0 0 :=
  (claim_C1_amended cfgMini distId spZero [1, 2] [1, 2] [1, 2] [2, 1] rfl
    (fun _ _ _ h => h) (fun _ _ _ h => h)
    (fun h => absurd h (by decide)) (fun h => absurd h (by decide))
    (fun h _ => absurd h (by decide))).2.2 1 0 (by norm_num) (by norm_num) (by norm_num)

/-- Configuration of the C1 counterexample: lower bound 0, lower threshold
1/2, no upper side. -/
def cfgC1 : ISIMIPConfig :=
  { cfgMini with
    lowerBound := QInf.finite 0
    lowerThreshold := QInf.finite (1/2) }

/-- Distribution of the C1 counterexample: identity cdf and the monotone
ppf p - 5, whose values lie below the configured lower bound. -/
def distShift : Dist := { fit := fun _ => [], cdf := fun _ x => x, ppf := fun _ p => p - 5 }

theorem argsort_cfC1 : argsort [(1/4 : ℚ), 2] 0 = [0, 1] := by
  unfold argsort
  rw [show List.range ([(1/4 : ℚ), 2].length) = [0, 1] from rfl]
  show List.orderedInsert _ 0 (List.orderedInsert _ 1 []) = [0, 1]
  rw [List.orderedInsert, List.orderedInsert, if_pos]
  unfold rankLe
  left
  norm_num

theorem sortQ_02 : sortQ [(0 : ℚ), 2] = [0, 2] := by
  unfold sortQ
  show List.orderedInsert _ 0 (List.orderedInsert _ 2 []) = [0, 2]
  rw [List.orderedInsert, List.orderedInsert, if_pos]
  norm_num

theorem s6cfS_cfC1 : s6cfS [(1/4 : ℚ), 2] = [1/4, 2] := by
  unfold s6cfS
  rw [argsort_cfC1]
  rfl

theorem maskLower_cfC1_02 : maskBeyondLower cfgC1 [(0 : ℚ), 2] = [true, false] := by
  norm_num [maskBeyondLower, leQI, cfgC1, cfgMini]

theorem maskLower_cfC1_cf : maskBeyondLower cfgC1 [(1/4 : ℚ), 2] = [true, false] := by
  norm_num [maskBeyondLower, leQI, cfgC1, cfgMini]

theorem nrC1 : nrEntriesToBound [true, false] [true, false] [true, false] = 1 := by
  norm_num [nrEntriesToBound, percentBeyond, countTrue, getPObsFuture, iscloseQ, pyRound]

theorem s6nrL_cfC1 : s6nrL cfgC1 [0, 2] [0, 2] [(1/4 : ℚ), 2] = 1 := by
  unfold s6nrL
  rw [if_pos (show cfgC1.hasLowerThreshold = true from rfl), sortQ_02, s6cfS_cfC1,
    maskLower_cfC1_02, maskLower_cfC1_cf, nrC1]

theorem s6nrU_cfC1 : s6nrU cfgC1 [0, 2] [0, 2] [(1/4 : ℚ), 2] = 0 := by
  unfold s6nrU
  rw [if_neg]
  decide

theorem valuesBetween_cfC1 : valuesBetween cfgC1 (sortQ [(0 : ℚ), 2]) = [2] := by
  rw [sortQ_02]
  norm_num [valuesBetween, maskBetween, gtQI, ltQI, cfgC1, cfgMini, filterByMask]

theorem s6mapped_cfC1 :
    s6mapped cfgC1 distShift spZero [0, 2] [0, 2] [0, 2] [(1/4 : ℚ), 2] =
      [1 - 1/10000000000 - 5] := by
  unfold s6mapped
  rw [s6middle_eq, s6cfS_cfC1]
  rw [show s6maskNot cfgC1 [0, 2] [0, 2] [(1/4 : ℚ), 2] = [false, true] by
    unfold s6maskNot
    rw [s6nrL_cfC1, s6nrU_cfC1]
    rfl]
  rw [show filterByMask [false, true] [(1/4 : ℚ), 2] = [2] from rfl]
  rw [valuesBetween_cfC1]
  unfold adjustBetween
  rw [if_pos (by rfl)]
  unfold thresholdCdfVals
  show [distShift.ppf (distShift.fit [2])
    (max (1/10000000000) (min (1 - 1/10000000000) (distShift.cdf (distShift.fit [2]) 2)))] = _
  rw [show distShift.cdf (distShift.fit [2]) 2 = 2 from rfl]
  rw [show max ((1 : ℚ)/10000000000) (min (1 - 1/10000000000) 2) = 1 - 1/10000000000 by
    norm_num]
  rfl

/-- C1 counterexample: with a configured lower threshold, a monotone ppf
whose values lie below the lower bound breaks the rank order: cm_future's
position 0 (value 1/4) is smaller than position 1 (value 2), yet the
debiased output at position 1 is smaller than at position 0 (the smallest
sorted entry was forced to the lower bound 0 while the quantile-mapped
entry came out negative). This refutes the claim as stated, whose only
distributional assumption is that ppf is monotonically non-decreasing. -/
theorem claim_C1_counterexample :
    (∀ (ps : List ℚ) (a b : ℚ), a ≤ b → distShift.ppf ps a ≤ distShift.ppf ps b) ∧
    ((1/4 : ℚ) < 2) ∧
    (step6 cfgC1 distShift spZero [0, 2] [0, 2] [0, 2] [1/4, 2]).getD 1 0 <
      (step6 cfgC1 distShift spZero [0, 2] [0, 2] [0, 2] [1/4, 2]).getD 0 0 := by
  refine ⟨fun _ a b h => by simpa [distShift] using sub_le_sub_right h 5, by norm_num, ?_⟩
  unfold step6
  rw [argsort_cfC1, show argsort ([0, 1] : List ℕ) 0 = [0, 1] by decide]
  have h0 : (0 : ℕ) < ([(1/4 : ℚ), 2]).length := by norm_num
  have h1 : (1 : ℕ) < ([(1/4 : ℚ), 2]).length := by norm_num
  have hg0 := step6Sorted_resultGetD cfgC1 distShift spZero [0, 2] [0, 2] [0, 2]
    [(1/4 : ℚ), 2] h0
  have hg1 := step6Sorted_resultGetD cfgC1 distShift spZero [0, 2] [0, 2] [0, 2]
    [(1/4 : ℚ), 2] h1
  rw [s6nrL_cfC1, s6nrU_cfC1, s6mapped_cfC1] at hg0 hg1
  rw [show (gather (step6Sorted cfgC1 distShift spZero [0, 2] [0, 2] [0, 2] [1/4, 2])
      [0, 1] 0).getD 1 0 =
    (step6Sorted cfgC1 distShift spZero [0, 2] [0, 2] [0, 2] [1/4, 2]).getD 1 0 from rfl]
  rw [show (gather (step6Sorted cfgC1 distShift spZero [0, 2] [0, 2] [0, 2] [1/4, 2])
      [0, 1] 0).getD 0 0 =
    (step6Sorted cfgC1 distShift spZero [0, 2] [0, 2] [0, 2] [1/4, 2]).getD 0 0 from rfl]
  rw [hg0, hg1]
  norm_num [cfgC1, cfgMini, QInf.toQ]

end Ibicus
